import Mathlib

/-!
Shallow embedding of the NQ_analysis reconciliation scripts and proofs about them.

Modelling conventions used throughout:
* characters are Unicode code points (`Nat`), Python strings are `List Nat`;
* Python floats arising from `len(..)/len(..)` divisions are modelled as `ℚ`;
* a JSON line that fails to parse is `Option.none`; a JSON object field that may be
  absent is an `Option` field whose `none` means the key is absent;
* `f.tell()` / `f.seek()` positions: in the sources every seek target is a previous
  tell value taken at the start of a line, so byte offsets are modelled by line
  indices (the map from line index to byte offset is strictly monotone, hence the
  two are in order-preserving bijection);
* Python dicts are modelled extensionally by association lists: an assignment conses
  a new binding, a lookup takes the most recent binding.  The scripts never delete
  keys and never iterate over the dicts in an order-relevant way.
-/

namespace NQ

/-- Characters are modelled by Unicode code points, Python strings by lists of code points. -/
abbrev Str := List Nat

/-- Code points of a Lean string literal; used to build concrete test inputs. -/
def strCodes (s : String) : Str := s.toList.map Char.toNat

/-- Python `str.lower` on one character: ASCII capital letters are shifted to the
lowercase range, every other code point is unchanged (the inputs of interest are ASCII). -/
def pyLower (c : Nat) : Nat := if 65 ≤ c ∧ c ≤ 90 then c + 32 else c

/-- ASCII whitespace, as stripped by Python `str.strip()` and split on by `str.split()`. -/
def isSpaceChar (c : Nat) : Bool := c == 32 || c == 9 || c == 10 || c == 13 || c == 11 || c == 12

/-- Python `str.strip()`: drop leading and trailing whitespace. -/
def pyStrip (s : Str) : Str := ((s.dropWhile isSpaceChar).reverse.dropWhile isSpaceChar).reverse

/-- Source `normalize_question` (merge_datasets_chunked.py line 20, also
merge_datasets_optimized_memory.py, merge_datasets_optimized_fixed.py,
merge_dev_datasets.py): `text.lower().strip()`. -/
def normalize_question (s : Str) : Str := pyStrip (s.map pyLower)

/-- Membership test for `string.punctuation`, the ASCII code points 33-47, 58-64,
91-96 and 123-126. -/
def isPunct (c : Nat) : Bool :=
  (33 ≤ c && c ≤ 47) || (58 ≤ c && c ≤ 64) || (91 ≤ c && c ≤ 96) || (123 ≤ c && c ≤ 126)

/-- One step of `re.sub(f'[{string.punctuation}]', ' ', text)`. -/
def punctToSpace (c : Nat) : Nat := if isPunct c then 32 else c

/-- Accumulator loop of `splitWs`; `w` holds the current word reversed. -/
def splitWsAux : Str → Str → List Str
  | [], w => if w = [] then [] else [w.reverse]
  | c :: cs, w =>
    if isSpaceChar c then
      if w = [] then splitWsAux cs [] else w.reverse :: splitWsAux cs []
    else splitWsAux cs (c :: w)

/-- Python `str.split()` with no argument: split on whitespace runs, discarding
empty pieces. -/
def splitWs (s : Str) : List Str := splitWsAux s []

/-- Python `' '.join(ws)`. -/
def sjoin : List Str → Str
  | [] => []
  | [w] => w
  | w :: w2 :: ws => w ++ 32 :: sjoin (w2 :: ws)

/-- Source `normalize_text` (merge_datasets.py lines 21-28, also
merge_datasets_simplified.py, test_similarity.py): lower-case, strip, replace every
punctuation character by a space, then `' '.join(text.split())`. -/
def normalize_text (s : Str) : Str :=
  sjoin (splitWs ((pyStrip (s.map pyLower)).map punctToSpace))

/-- Stop-word list of `get_keywords` (merge_datasets.py line 35). -/
def stop_words : List Str :=
  [strCodes "a", strCodes "an", strCodes "the", strCodes "is", strCodes "was",
   strCodes "were", strCodes "will", strCodes "be", strCodes "in", strCodes "on",
   strCodes "at", strCodes "to", strCodes "for", strCodes "of"]

/-- Source `get_keywords` (merge_datasets.py lines 30-37).  A Python set of strings
is modelled extensionally by a deduplicated list in first-occurrence order (set
iteration order is unspecified in Python; no proved statement depends on the order). -/
def get_keywords (t : Str) : List Str :=
  ((splitWs (normalize_text t)).filter (fun w => w ∉ stop_words)).dedup

/-- Source `calculate_similarity` (merge_datasets.py lines 39-49): Jaccard index of
two keyword sets, with 0 when either set is empty.  The arguments are deduplicated
lists standing for sets, so the filtered lengths are the intersection and union
cardinalities; the float result is modelled as a rational. -/
def calculate_similarity (k1 k2 : List Str) : ℚ :=
  if k1 = [] ∨ k2 = [] then 0
  else ((k1.filter (fun w => w ∈ k2)).length : ℚ) /
    ((k1 ++ k2.filter (fun w => w ∉ k1)).length : ℚ)

/-- Prefix test on code-point lists (Python `str.startswith` / regex anchoring). -/
def startsWith : Str → Str → Bool
  | [], _ => true
  | _ :: _, [] => false
  | a :: as, b :: bs => a == b && startsWith as bs

namespace ProcessDatasets

/-- Leading interrogative words removed by `normalize_question` of process_datasets.py. -/
def question_words : List Str :=
  [strCodes "what", strCodes "when", strCodes "where", strCodes "who", strCodes "why",
   strCodes "how", strCodes "which", strCodes "whose", strCodes "whom"]

/-- One alternative of `re.sub(r'^(is|was|were)\s+', '', q)`: if `s` starts with the
word `w` followed by at least one whitespace character, drop the word and the
(greedily matched) whitespace run. -/
def tryCopula (w : Str) (s : Str) : Option Str :=
  if startsWith w s then
    let rest := s.drop w.length
    match rest.head? with
    | some c => if isSpaceChar c then some (rest.dropWhile isSpaceChar) else none
    | none => none
  else none

/-- Effect of `re.sub(r'^(is|was|were)\s+', '', q)`, trying the alternatives in
the regex engine's order. -/
def stripLeadingCopula (s : Str) : Str :=
  match tryCopula (strCodes "is") s with
  | some r => r
  | none =>
    match tryCopula (strCodes "was") s with
    | some r => r
    | none =>
      match tryCopula (strCodes "were") s with
      | some r => r
      | none => s

/-- Source `normalize_question` (process_datasets.py lines 20-42): lower-case and
strip, delete the characters `.,?!`, collapse whitespace, remove a leading
interrogative word, then remove a leading copula `is`/`was`/`were`. -/
def normalize_question (s : Str) : Str :=
  let q1 := pyStrip (s.map pyLower)
  let q2 := q1.filter (fun c => !(c == 46 || c == 44 || c == 63 || c == 33))
  let q3 := sjoin (splitWs q2)
  let q4 :=
    match splitWs q3 with
    | [] => q3
    | w :: rest => if w ∈ question_words then sjoin rest else q3
  stripLeadingCopula q4

end ProcessDatasets

example : normalize_question (strCodes " Foo? ") = strCodes "foo?" := by decide
example : normalize_text (strCodes " Foo? ") = strCodes "foo" := by decide
example : ProcessDatasets.normalize_question (strCodes " Foo? ") = strCodes "foo" := by decide
example : ProcessDatasets.normalize_question (strCodes "what is what") = strCodes "what" := by decide
example : ProcessDatasets.normalize_question (strCodes "what") = [] := by decide
example : get_keywords (strCodes "what is the capital of France?") =
    [strCodes "what", strCodes "capital", strCodes "france"] := by decide
example : calculate_similarity (get_keywords (strCodes "the is")) (get_keywords (strCodes "capital")) = 0 := by
  decide

/-! Basic lemmas about the text model, towards idempotence of the normalizers. -/

theorem pyLower_idem (c : Nat) : pyLower (pyLower c) = pyLower c := by
  unfold pyLower; split_ifs <;> omega

theorem mem_of_mem_dropWhile {a : Nat} {p : Nat → Bool} {l : Str} (h : a ∈ l.dropWhile p) :
    a ∈ l := by
  induction l with
  | nil => simp at h
  | cons c cs ih =>
    rw [List.dropWhile_cons] at h
    split at h
    · exact List.mem_cons_of_mem _ (ih h)
    · exact h

theorem mem_of_mem_pyStrip {a : Nat} {s : Str} (h : a ∈ pyStrip s) : a ∈ s := by
  unfold pyStrip at h
  rw [List.mem_reverse] at h
  have h2 := mem_of_mem_dropWhile h
  rw [List.mem_reverse] at h2
  exact mem_of_mem_dropWhile h2

theorem map_id_of_mem {f : Nat → Nat} : ∀ {l : Str}, (∀ a ∈ l, f a = a) → l.map f = l
  | [], _ => rfl
  | a :: l, h => by
    rw [List.map_cons, h a (List.mem_cons_self a l),
      map_id_of_mem (fun b hb => h b (List.mem_cons_of_mem a hb))]

theorem head?_dropWhile {p : Nat → Bool} : ∀ {l : Str} {a : Nat},
    (l.dropWhile p).head? = some a → p a = false
  | [], a => by simp
  | c :: cs, a => by
    rw [List.dropWhile_cons]
    split
    · exact head?_dropWhile
    · rename_i h
      intro he
      rw [List.head?_cons, Option.some.injEq] at he
      subst he
      exact Bool.of_not_eq_true h

theorem dropWhile_eq_self_of_head? {p : Nat → Bool} {l : Str}
    (h : ∀ a, l.head? = some a → p a = false) : l.dropWhile p = l := by
  cases l with
  | nil => rfl
  | cons c cs =>
    rw [List.dropWhile_cons, if_neg]
    simp [h c rfl]

theorem getLast?_dropWhile {p : Nat → Bool} : ∀ {l : Str},
    l.dropWhile p ≠ [] → (l.dropWhile p).getLast? = l.getLast?
  | [], h => by simp at h
  | c :: cs, h => by
    rw [List.dropWhile_cons] at h ⊢
    split
    · rename_i hp
      cases cs with
      | nil => simp at h; simp [h] at hp
      | cons d ds =>
        rw [List.getLast?_cons_cons]
        exact getLast?_dropWhile (by rw [List.dropWhile_cons] at h ⊢; rwa [if_pos hp] at h)
    · rfl

theorem pyStrip_eq_self {s : Str} (h1 : ∀ a, s.head? = some a → isSpaceChar a = false)
    (h2 : ∀ a, s.getLast? = some a → isSpaceChar a = false) : pyStrip s = s := by
  unfold pyStrip
  rw [dropWhile_eq_self_of_head? h1]
  rw [dropWhile_eq_self_of_head? (by
    intro a ha
    rw [List.head?_reverse] at ha
    exact h2 a ha)]
  exact List.reverse_reverse s

theorem pyStrip_head? {s : Str} {a : Nat} (h : (pyStrip s).head? = some a) :
    isSpaceChar a = false := by
  unfold pyStrip at h
  rw [List.head?_reverse] at h
  have hne : ((s.dropWhile isSpaceChar).reverse.dropWhile isSpaceChar) ≠ [] := by
    intro he; rw [he] at h; simp at h
  rw [getLast?_dropWhile hne, List.getLast?_reverse] at h
  exact head?_dropWhile h

theorem pyStrip_getLast? {s : Str} {a : Nat} (h : (pyStrip s).getLast? = some a) :
    isSpaceChar a = false := by
  unfold pyStrip at h
  rw [List.getLast?_reverse] at h
  exact head?_dropWhile h

theorem pyStrip_idem (s : Str) : pyStrip (pyStrip s) = pyStrip s :=
  pyStrip_eq_self (fun _ h => pyStrip_head? h) (fun _ h => pyStrip_getLast? h)

theorem splitWsAux_words : ∀ (s : Str) (w : Str), (∀ c ∈ w, isSpaceChar c = false) →
    ∀ u ∈ splitWsAux s w, u ≠ [] ∧ ∀ c ∈ u, isSpaceChar c = false
  | [], w, hw => by
    unfold splitWsAux
    split
    · simp
    · rename_i hne
      intro u hu
      rw [List.mem_singleton] at hu
      subst hu
      exact ⟨by simpa using hne, fun c hc => hw c (List.mem_reverse.1 hc)⟩
  | a :: s, w, hw => by
    unfold splitWsAux
    split
    · split
      · exact splitWsAux_words s [] (by simp)
      · rename_i hne
        intro u hu
        rcases List.mem_cons.1 hu with hu | hu
        · subst hu
          exact ⟨by simpa using hne, fun c hc => hw c (List.mem_reverse.1 hc)⟩
        · exact splitWsAux_words s [] (by simp) u hu
    · rename_i ha
      refine splitWsAux_words s (a :: w) ?_
      intro c hc
      rcases List.mem_cons.1 hc with hc | hc
      · subst hc; exact Bool.of_not_eq_true ha
      · exact hw c hc

theorem splitWsAux_chars : ∀ (s : Str) (w : Str) (u : Str) (c : Nat),
    u ∈ splitWsAux s w → c ∈ u → c ∈ s ∨ c ∈ w
  | [], w, u, c => by
    unfold splitWsAux
    split
    · simp
    · intro hu hc
      rw [List.mem_singleton] at hu
      subst hu
      exact Or.inr (List.mem_reverse.1 hc)
  | a :: s, w, u, c => by
    unfold splitWsAux
    split
    · split
      · intro hu hc
        rcases splitWsAux_chars s [] u c hu hc with h | h
        · exact Or.inl (List.mem_cons_of_mem a h)
        · simp at h
      · intro hu hc
        rcases List.mem_cons.1 hu with hu | hu
        · subst hu
          exact Or.inr (List.mem_reverse.1 hc)
        · rcases splitWsAux_chars s [] u c hu hc with h | h
          · exact Or.inl (List.mem_cons_of_mem a h)
          · simp at h
    · intro hu hc
      rcases splitWsAux_chars s (a :: w) u c hu hc with h | h
      · exact Or.inl (List.mem_cons_of_mem a h)
      · rcases List.mem_cons.1 h with h | h
        · exact Or.inl (h ▸ List.mem_cons_self a s)
        · exact Or.inr h

theorem sjoin_ne_nil : ∀ {ws : List Str}, (∀ u ∈ ws, u ≠ []) → ws ≠ [] → sjoin ws ≠ []
  | [], _, h => absurd rfl h
  | [u], hu, _ => by simpa using hu u (List.mem_singleton.2 rfl)
  | u :: u2 :: ws, hu, _ => by
    show u ++ 32 :: sjoin (u2 :: ws) ≠ []
    simp

theorem mem_sjoin : ∀ {ws : List Str} {c : Nat}, c ∈ sjoin ws → c = 32 ∨ ∃ u ∈ ws, c ∈ u
  | [], c, h => by simp [sjoin] at h
  | [u], c, h => Or.inr ⟨u, List.mem_singleton.2 rfl, h⟩
  | u :: u2 :: ws, c, h => by
    rcases List.mem_append.1 h with h | h
    · exact Or.inr ⟨u, List.mem_cons_self _ _, h⟩
    · rcases List.mem_cons.1 h with h | h
      · exact Or.inl h
      · rcases mem_sjoin h with h | ⟨v, hv, hc⟩
        · exact Or.inl h
        · exact Or.inr ⟨v, List.mem_cons_of_mem _ hv, hc⟩

theorem sjoin_head? : ∀ {ws : List Str}, ws ≠ [] → (∀ v ∈ ws, v ≠ []) →
    ∃ v ∈ ws, (sjoin ws).head? = v.head?
  | [], hne, _ => absurd rfl hne
  | [v], _, _ => ⟨v, List.mem_singleton.2 rfl, rfl⟩
  | v :: v2 :: ws, _, hne => by
    refine ⟨v, List.mem_cons_self _ _, ?_⟩
    show (v ++ 32 :: sjoin (v2 :: ws)).head? = v.head?
    cases hv : v with
    | nil => exact absurd hv (hne v (List.mem_cons_self _ _))
    | cons a l => simp

theorem sjoin_getLast? : ∀ {ws : List Str}, (∀ v ∈ ws, v ≠ []) → ws ≠ [] →
    ∃ v ∈ ws, (sjoin ws).getLast? = v.getLast?
  | [], _, h => absurd rfl h
  | [v], _, _ => ⟨v, List.mem_singleton.2 rfl, rfl⟩
  | v :: v2 :: ws, hne, _ => by
    obtain ⟨w, hw, he⟩ := sjoin_getLast? (fun x hx => hne x (List.mem_cons_of_mem _ hx))
      (List.cons_ne_nil v2 ws)
    refine ⟨w, List.mem_cons_of_mem _ hw, ?_⟩
    show (v ++ 32 :: sjoin (v2 :: ws)).getLast? = w.getLast?
    rw [List.getLast?_append]
    have hne2 : sjoin (v2 :: ws) ≠ [] :=
      sjoin_ne_nil (fun x hx => hne x (List.mem_cons_of_mem _ hx)) (List.cons_ne_nil v2 ws)
    have h32 : (32 :: sjoin (v2 :: ws)).getLast? = (sjoin (v2 :: ws)).getLast? := by
      cases hs : sjoin (v2 :: ws) with
      | nil => exact absurd hs hne2
      | cons b l => rw [List.getLast?_cons_cons]
    rw [h32, he]
    have hwne : w ≠ [] := hne w (List.mem_cons_of_mem _ hw)
    obtain ⟨x, hx⟩ : ∃ x, w.getLast? = some x := by
      cases hwc : w with
      | nil => exact absurd hwc hwne
      | cons b l => exact ⟨(b :: l).getLast (by simp), List.getLast?_eq_getLast _ _⟩
    rw [hx]
    rfl

theorem splitWsAux_nil (w : Str) : splitWsAux [] w = if w = [] then [] else [w.reverse] := rfl

theorem splitWsAux_cons (c : Nat) (s w : Str) :
    splitWsAux (c :: s) w =
      if isSpaceChar c then (if w = [] then splitWsAux s [] else w.reverse :: splitWsAux s [])
      else splitWsAux s (c :: w) := rfl

theorem splitWsAux_word_append : ∀ (u : Str) (s : Str) (w : Str),
    (∀ c ∈ u, isSpaceChar c = false) → splitWsAux (u ++ s) w = splitWsAux s (u.reverse ++ w)
  | [], s, w, _ => by simp
  | a :: u, s, w, h => by
    show splitWsAux (a :: (u ++ s)) w = _
    rw [splitWsAux_cons, if_neg (by simp [h a (List.mem_cons_self a u)])]
    rw [splitWsAux_word_append u s (a :: w) (fun c hc => h c (List.mem_cons_of_mem a hc))]
    simp

theorem splitWs_sjoin : ∀ (ws : List Str),
    (∀ u ∈ ws, u ≠ [] ∧ ∀ c ∈ u, isSpaceChar c = false) → splitWs (sjoin ws) = ws
  | [], _ => rfl
  | [u], h => by
    obtain ⟨hne, hc⟩ := h u (List.mem_singleton.2 rfl)
    show splitWsAux u [] = [u]
    have := splitWsAux_word_append u [] [] hc
    rw [List.append_nil] at this
    rw [this]
    unfold splitWsAux
    rw [if_neg (by simpa using hne)]
    simp
  | u :: u2 :: ws, h => by
    obtain ⟨hne, hc⟩ := h u (List.mem_cons_self _ _)
    show splitWsAux (u ++ 32 :: sjoin (u2 :: ws)) [] = u :: u2 :: ws
    rw [splitWsAux_word_append u _ [] hc, List.append_nil]
    unfold splitWsAux
    rw [if_pos (by decide)]
    rw [if_neg (by simpa using hne)]
    rw [List.reverse_reverse]
    congr 1
    exact splitWs_sjoin (u2 :: ws) (fun v hv => h v (List.mem_cons_of_mem _ hv))

theorem normalize_text_chars {s : Str} {c : Nat} (hc : c ∈ normalize_text s) :
    isSpaceChar c = false → pyLower c = c ∧ isPunct c = false := by
  intro hsp
  rcases mem_sjoin hc with h | ⟨u, hu, hcu⟩
  · rw [h] at hsp; simp [isSpaceChar] at hsp
  · rcases splitWsAux_chars _ [] u c hu hcu with h | h
    · obtain ⟨x, hx, rfl⟩ := List.mem_map.1 h
      constructor
      · unfold punctToSpace
        split
        · decide
        · obtain ⟨y, _, rfl⟩ := List.mem_map.1 (mem_of_mem_pyStrip hx)
          exact pyLower_idem y
      · unfold punctToSpace
        split
        · decide
        · rename_i hp
          exact Bool.of_not_eq_true hp
    · simp at h

theorem normalize_text_words (s : Str) :
    ∀ u ∈ splitWs (normalize_text s), u ≠ [] ∧ ∀ c ∈ u, isSpaceChar c = false := by
  exact splitWsAux_words _ [] (by simp)

theorem mem_of_head?_eq {α : Type} {l : List α} {a : α} (h : l.head? = some a) : a ∈ l := by
  cases l with
  | nil => simp at h
  | cons b bs =>
    rw [List.head?_cons, Option.some.injEq] at h
    exact h ▸ List.mem_cons_self b bs

theorem mem_of_getLast?_eq : ∀ {α : Type} {l : List α} {a : α}, l.getLast? = some a → a ∈ l
  | _, [], a, h => by simp at h
  | _, [b], a, h => by
    simp only [List.getLast?_singleton, Option.some.injEq] at h
    exact h ▸ List.mem_singleton.2 rfl
  | _, b :: c :: l, a, h => by
    rw [List.getLast?_cons_cons] at h
    exact List.mem_cons_of_mem b (mem_of_getLast?_eq h)

theorem space_cases {a : Nat} (h : isSpaceChar a = true) :
    a = 32 ∨ a = 9 ∨ a = 10 ∨ a = 13 ∨ a = 11 ∨ a = 12 := by
  simp [isSpaceChar] at h
  omega

theorem normalize_text_idem (s : Str) : normalize_text (normalize_text s) = normalize_text s := by
  have hwords := splitWsAux_words ((pyStrip (s.map pyLower)).map punctToSpace) [] (by simp)
  set ws := splitWsAux ((pyStrip (s.map pyLower)).map punctToSpace) [] with hws
  have ht : normalize_text s = sjoin ws := rfl
  have hchars : ∀ c ∈ sjoin ws, isSpaceChar c = false → pyLower c = c ∧ isPunct c = false := by
    intro c hc
    exact normalize_text_chars (ht ▸ hc)
  by_cases hemp : ws = []
  · rw [ht, hemp]
    rfl
  · have hlow : (sjoin ws).map pyLower = sjoin ws := by
      refine map_id_of_mem ?_
      intro a ha
      by_cases hsp : isSpaceChar a = false
      · exact (hchars a ha hsp).1
      · rw [Bool.not_eq_false] at hsp
        rcases space_cases hsp with rfl | rfl | rfl | rfl | rfl | rfl <;> decide
    have hstrip : pyStrip (sjoin ws) = sjoin ws := by
      refine pyStrip_eq_self ?_ ?_
      · intro a ha
        obtain ⟨v, hv, he⟩ := sjoin_head? hemp (fun u hu => (hwords u hu).1)
        rw [he] at ha
        exact (hwords v hv).2 a (mem_of_head?_eq ha)
      · intro a ha
        obtain ⟨v, hv, he⟩ := sjoin_getLast? (fun u hu => (hwords u hu).1) hemp
        rw [he] at ha
        exact (hwords v hv).2 a (mem_of_getLast?_eq ha)
    have hpunct : (sjoin ws).map punctToSpace = sjoin ws := by
      refine map_id_of_mem ?_
      intro a ha
      by_cases hsp : isSpaceChar a = false
      · have h2 := (hchars a ha hsp).2
        unfold punctToSpace
        rw [if_neg (by simp [h2])]
      · rw [Bool.not_eq_false] at hsp
        rcases space_cases hsp with rfl | rfl | rfl | rfl | rfl | rfl <;> decide
    rw [ht]
    show sjoin (splitWs ((pyStrip ((sjoin ws).map pyLower)).map punctToSpace)) = sjoin ws
    rw [hlow, hstrip, hpunct, splitWs_sjoin ws hwords]

theorem normalize_question_idem (s : Str) :
    normalize_question (normalize_question s) = normalize_question s := by
  unfold normalize_question
  rw [map_id_of_mem (fun a ha => by
    obtain ⟨b, _, rfl⟩ := List.mem_map.1 (mem_of_mem_pyStrip ha)
    exact pyLower_idem b)]
  exact pyStrip_idem _

/-! Data model of the record store, the query dataset and the outputs. -/

/-- One parsed store record.  Each field holds the value of `data.get(key, default)`
as used by the scripts, the default being the empty string or empty list when the
key is absent from the JSON object. -/
structure StoreRec where
  question_text : Str
  document_url : Str
  example_id : Str
  document_text : Str
  annotations : List Str
  long_answer_candidates : List Str
deriving DecidableEq

/-- One physical line of the compressed store.  `parsed = none` models a line on
which `json.loads` raises.  Offsets are line indices (see the header comment). -/
structure RawLine where
  parsed : Option StoreRec
deriving DecidableEq

/-- One parsed query record.  `answer = none` models a JSON object without an
`answer` key, so the `data.get('answer', default)` defaults apply. -/
structure QueryRec where
  question : Str
  answer : Option (List Str)
deriving DecidableEq

/-- Index entry of `process_chunk` and `create_minimal_index`:
`{document_url, example_id, byte_offset}`. -/
structure IndexEntry where
  document_url : Str
  example_id : Str
  byte_offset : Nat
deriving DecidableEq

/-- Minimal index entry of `load_simplified_nq_minimal`
(merge_datasets_optimized_fixed.py): `{document_url, example_id, original_question}`. -/
structure MinEntry where
  document_url : Str
  example_id : Str
  original_question : Str
deriving DecidableEq

/-- A Python dict, modelled extensionally by an association list: assignment conses
a binding, lookup takes the most recent binding, emptiness is list emptiness.  The
scripts never delete keys, and never iterate over these dicts. -/
abbrev QIndex (ε : Type) := List (Str × ε)

/-- Dict assignment `d[k] = v`. -/
def qinsert {ε : Type} (idx : QIndex ε) (k : Str) (v : ε) : QIndex ε := (k, v) :: idx

/-- Dict lookup: `d[k]` when `k in d`, `none` otherwise. -/
def qlookup {ε : Type} (idx : QIndex ε) (k : Str) : Option ε :=
  (idx.find? (fun p => p.1 == k)).map (fun p => p.2)

/-- Merged output record written by the exact-match drivers:
`{question, answer, document_text, document_url, annotations, long_answer_candidates,
example_id}`. -/
structure MergedRec where
  question : Str
  answer : List Str
  document_text : Str
  document_url : Str
  annotations : List Str
  long_answer_candidates : List Str
  example_id : Str
deriving DecidableEq

/-- Unmatched output record of the exact-match drivers: `{question, answer}` with an
optional `error` reason key, written only by merge_datasets_optimized_fixed.py
(`error = none` models a JSON object without the `error` key). -/
structure UnmatchedRec where
  question : Str
  answer : List Str
  error : Option Str
deriving DecidableEq

/-! Record Store Indexer and Record Fetcher. -/

/-- Loop body of `process_chunk` (merge_datasets_chunked.py lines 24-68).  Arguments:
remaining lines, position of the next line, remaining count (`chunk_size - processed`),
index built so far, `next_pos` so far.  A line that fails to parse is skipped without
touching `processed` or `next_pos`; end of file before the count is exhausted yields
the sentinel (`-1` in the source, `none` here). -/
def process_chunk_loop : List RawLine → Nat → Nat → QIndex IndexEntry → Nat →
    QIndex IndexEntry × Option Nat
  | _, _, 0, acc, next_pos => (acc, some next_pos)
  | [], _, _ + 1, acc, _ => (acc, none)
  | l :: ls, pos, r + 1, acc, next_pos =>
    match l.parsed with
    | none => process_chunk_loop ls (pos + 1) (r + 1) acc next_pos
    | some d =>
      let question := pyStrip d.question_text
      let acc2 := if question = [] then acc else
        qinsert acc (normalize_question question) ⟨d.document_url, d.example_id, pos⟩
      process_chunk_loop ls (pos + 1) r acc2 (pos + 1)

/-- Source `process_chunk` (merge_datasets_chunked.py lines 24-68).  A store that
cannot be opened at all (`store = none`) is absorbed by the outer handler, which
returns the empty index together with the end-of-store sentinel. -/
def process_chunk (store : Option (List RawLine)) (start_pos chunk_size : Nat) :
    QIndex IndexEntry × Option Nat :=
  match store with
  | none => ([], none)
  | some lines => process_chunk_loop (lines.drop start_pos) start_pos chunk_size [] start_pos

/-- Source `get_full_data` (merge_datasets_chunked.py lines 70-79, identical in
merge_datasets_optimized_memory.py): reopen the store, seek to the offset, read one
line and parse it; any failure (offset past the end, line that does not parse) is
absorbed and reported as `none` (`{}` in the source). -/
def get_full_data (store : Option (List RawLine)) (byte_offset : Nat) : Option StoreRec :=
  match store with
  | none => none
  | some lines =>
    match lines.get? byte_offset with
    | none => none
    | some l => l.parsed

/-- Loop body of `create_minimal_index` (merge_datasets_optimized_memory.py lines
23-76): whole-store scan building the same index as `process_chunk`, with no count
bound. -/
def create_minimal_index_loop : List RawLine → Nat → QIndex IndexEntry → QIndex IndexEntry
  | [], _, acc => acc
  | l :: ls, pos, acc =>
    match l.parsed with
    | none => create_minimal_index_loop ls (pos + 1) acc
    | some d =>
      let question := pyStrip d.question_text
      let acc2 := if question = [] then acc else
        qinsert acc (normalize_question question) ⟨d.document_url, d.example_id, pos⟩
      create_minimal_index_loop ls (pos + 1) acc2

/-- Source `create_minimal_index` (merge_datasets_optimized_memory.py lines 23-76).
An unreadable store (`none`) is absorbed by the outer handler, which returns the
index built so far; at the point of the open failure that index is empty. -/
def create_minimal_index (store : Option (List RawLine)) : QIndex IndexEntry :=
  match store with
  | none => []
  | some lines => create_minimal_index_loop lines 0 []

/-- Value of the internal `processed` counter of `create_minimal_index` after a full
scan: it counts the lines that parse (lines that fail to parse are skipped without
being counted). -/
def create_minimal_index_processed : List RawLine → Nat
  | [] => 0
  | l :: ls =>
    match l.parsed with
    | none => create_minimal_index_processed ls
    | some _ => create_minimal_index_processed ls + 1

/-! Exact-match Reconciliation Drivers. -/

/-- Loop body shared verbatim by `process_nq_open` (merge_datasets_optimized_memory.py
lines 89-152) and `process_nq_open_chunk` (merge_datasets_chunked.py lines 81-151)
for one parsed query line: on an index hit, fetch the full record; if the fetch
succeeds write one merged record, if it fails (`{}` falsy in the source) write
nothing at all; on an index miss write one unmatched record `{question, answer}`.
Both sources write the whitespace-stripped question, not the raw one. -/
def process_open_step (q : QueryRec) (idx : QIndex IndexEntry) (store : List RawLine) :
    List MergedRec × List UnmatchedRec :=
  let question := pyStrip q.question
  let answer := q.answer.getD []
  match qlookup idx (normalize_question question) with
  | some e =>
    match get_full_data (some store) e.byte_offset with
    | some sd =>
      ([⟨question, answer, sd.document_text, e.document_url, sd.annotations,
         sd.long_answer_candidates, e.example_id⟩], [])
    | none => ([], [])
  | none => ([], [⟨question, answer, none⟩])

/-- Source `process_nq_open` (merge_datasets_optimized_memory.py lines 89-152): run
the step over every query line; lines that fail to parse are absorbed and skipped. -/
def process_nq_open : List (Option QueryRec) → QIndex IndexEntry → List RawLine →
    List MergedRec × List UnmatchedRec
  | [], _, _ => ([], [])
  | none :: qs, idx, store => process_nq_open qs idx store
  | some q :: qs, idx, store =>
    let s := process_open_step q idx store
    let rest := process_nq_open qs idx store
    (s.1 ++ rest.1, s.2 ++ rest.2)

/-- Loop of `process_nq_open_chunk` (merge_datasets_chunked.py lines 81-151): the
same step, but stopping after `chunk_size` successfully processed lines; returns
the two output streams plus the `processed` and `matches` counters. -/
def process_nq_open_chunk_loop : List (Option QueryRec) → QIndex IndexEntry → List RawLine →
    Nat → List MergedRec × List UnmatchedRec × Nat × Nat
  | _, _, _, 0 => ([], [], 0, 0)
  | [], _, _, _ + 1 => ([], [], 0, 0)
  | none :: qs, idx, store, r + 1 => process_nq_open_chunk_loop qs idx store (r + 1)
  | some q :: qs, idx, store, r + 1 =>
    let s := process_open_step q idx store
    match process_nq_open_chunk_loop qs idx store r with
    | (m, u, p, t) => (s.1 ++ m, s.2 ++ u, p + 1, t + s.1.length)

/-- Source `process_nq_open_chunk` (merge_datasets_chunked.py lines 81-151):
`start_line` query lines are skipped, then at most `chunk_size` lines are processed.
The callers in `main` always pass `start_line = 0` and `chunk_size = args.chunk_size`. -/
def process_nq_open_chunk (queries : List (Option QueryRec)) (idx : QIndex IndexEntry)
    (store : List RawLine) (start_line chunk_size : Nat) :
    List MergedRec × List UnmatchedRec × Nat × Nat :=
  process_nq_open_chunk_loop (queries.drop start_line) idx store chunk_size

/-! Fuzzy-path driver of merge_datasets.py. -/

/-- One entry of the keyword index of merge_datasets.py: the stripped store
question, its document URL and its keyword set. -/
abbrev KwEntry := Str × Str × List Str

/-- The `questions_by_keyword` defaultdict of merge_datasets.py, modelled
extensionally: keyword to the list of entries appended under it, in append order;
`m k = []` models `k not in questions_by_keyword`. -/
abbrev KwMap := Str → List KwEntry

/-- The empty keyword index (a fresh `defaultdict(list)`). -/
def emptyKwMap : KwMap := fun _ => []

/-- Appending one store question under each of its keywords
(merge_datasets.py lines 67-69). -/
def kwmap_add (m : KwMap) (question url : Str) : KwMap :=
  let keywords := get_keywords question
  fun k => if k ∈ keywords then m k ++ [(question, url, keywords)] else m k

/-- Source `process_nq_file` (merge_datasets.py lines 51-79): index every parsed
store line that has both a non-empty question and a non-empty URL; lines that fail
to parse are absorbed and skipped. -/
def process_nq_file : List RawLine → KwMap → KwMap
  | [], m => m
  | l :: ls, m =>
    match l.parsed with
    | none => process_nq_file ls m
    | some d =>
      let question := pyStrip d.question_text
      if question = [] ∨ d.document_url = [] then process_nq_file ls m
      else process_nq_file ls (kwmap_add m question d.document_url)

/-- Stable descending insertion of one candidate: placed before the first strictly
smaller similarity, after all earlier candidates with an equal or larger one. -/
def insertDesc (x : Str × Str × ℚ) : List (Str × Str × ℚ) → List (Str × Str × ℚ)
  | [] => [x]
  | y :: ys => if y.2.2 < x.2.2 then x :: y :: ys else y :: insertDesc x ys

/-- Python `sorted(results, key=lambda r: r[2], reverse=True)`: a stable descending
sort by similarity.  A stable sort is extensionally unique, so this insertion sort
computes exactly the list Python's sort returns. -/
def sortBySimDesc (l : List (Str × Str × ℚ)) : List (Str × Str × ℚ) :=
  l.foldl (fun acc x => insertDesc x acc) []

/-- The candidates-dict update of find_matches (merge_datasets.py lines 98-99):
`if q not in candidates or candidates[q][1] < similarity: candidates[q] = (url, similarity)`,
preserving dict insertion order. -/
def setCand : List (Str × Str × ℚ) → Str → Str → ℚ → List (Str × Str × ℚ)
  | [], q, url, sim => [(q, url, sim)]
  | c :: cs, q, url, sim =>
    if c.1 = q then (if c.2.2 < sim then (q, url, sim) :: cs else c :: cs)
    else c :: setCand cs q url sim

/-- Source `find_matches` (merge_datasets.py lines 81-103): for each keyword of the
target present in the keyword index, score every entry filed under it, keep the
candidates reaching the threshold with their best score, and return them sorted by
descending similarity.  The iteration order over the target keyword set is
unspecified in Python; the canonical first-occurrence order is used here, and no
proved statement depends on it. -/
def find_matches (target_question : Str) (questions_by_keyword : KwMap)
    (threshold : ℚ) : List (Str × Str × ℚ) :=
  let target_keywords := get_keywords target_question
  let cands := target_keywords.foldl (fun cands keyword =>
    if questions_by_keyword keyword = [] then cands
    else (questions_by_keyword keyword).foldl (fun cands e =>
      let similarity := calculate_similarity target_keywords e.2.2
      if threshold ≤ similarity then setCand cands e.1 e.2.1 similarity else cands) cands) []
  sortBySimDesc cands

/-- Record written to the main output stream `fout` by `process_efficient_qa`
(merge_datasets.py): the original query object, with `document_url`, `nq_similarity`
and `nq_question` added on a fuzzy match (`none` models an absent key). -/
structure EQPassRec where
  question : Str
  answer : Option (List Str)
  document_url : Option Str
  nq_similarity : Option ℚ
  nq_question : Option Str
deriving DecidableEq

/-- Record written to the unmatched stream by `process_efficient_qa`
(merge_datasets.py): `{question, answer}` where `answer` is the single first answer
element; this variant never writes a reason key (`error = none` throughout). -/
structure EQUnmatchedRec where
  question : Str
  answer : Str
  error : Option Str
deriving DecidableEq

/-- Value of `data.get('answer', [''])[0]` (merge_datasets.py line 126): the default
`['']` yields the empty string when the key is absent, but a present empty list
raises IndexError, modelled by `none`. -/
def answerHead (q : QueryRec) : Option Str :=
  match q.answer with
  | none => some []
  | some [] => none
  | some (a :: _) => some a

/-- Loop body of `process_efficient_qa` (merge_datasets.py lines 122-165) for one
parsed query line, returning the records appended to `fout` and to the unmatched
stream plus the increments of the `processed` and `matches_found` counters.  When
`answerHead` raises (empty answer list), the broad handler absorbs the error before
anything is written, so the line contributes nothing at all. -/
def process_efficient_qa_step (q : QueryRec) (questions_by_keyword : KwMap) :
    List EQPassRec × List EQUnmatchedRec × Nat × Nat :=
  match answerHead q with
  | none => ([], [], 0, 0)
  | some answer =>
    let question := pyStrip q.question
    match find_matches question questions_by_keyword (9 / 10) with
    | best :: _ =>
      ([⟨q.question, q.answer, some best.2.1, some best.2.2, some best.1⟩], [], 1, 1)
    | [] =>
      ([⟨q.question, q.answer, none, none, none⟩], [⟨question, answer, none⟩], 1, 0)

/-- Source `process_efficient_qa` (merge_datasets.py lines 105-165): run the step
over every query line; lines that fail to parse are absorbed and skipped.  Returns
(fout stream, unmatched stream, processed, matches_found). -/
def process_efficient_qa : List (Option QueryRec) → KwMap →
    List EQPassRec × List EQUnmatchedRec × Nat × Nat
  | [], _ => ([], [], 0, 0)
  | none :: qs, m => process_efficient_qa qs m
  | some q :: qs, m =>
    match process_efficient_qa_step q m, process_efficient_qa qs m with
    | (f1, u1, p1, t1), (f2, u2, p2, t2) => (f1 ++ f2, u1 ++ u2, p1 + p2, t1 + t2)

/-! Exact-match driver of merge_datasets_optimized_fixed.py. -/

/-- Reason string written on a fetch failure (merge_datasets_optimized_fixed.py
line 198); the spec calls this reason code `fetch_failed`. -/
def fetch_failed_reason : Str := strCodes "Failed to get full data"

/-- Reason string written on an index miss (merge_datasets_optimized_fixed.py
line 205); the spec calls this reason code `no_match`. -/
def no_match_reason : Str := strCodes "No match found"

/-- Source `get_full_data_from_simplified_nq` (merge_datasets_optimized_fixed.py
lines 68-91): scan the store for the first parsed line whose non-empty normalized
question equals the normalized target; every failure (unreadable store, lines that
do not parse, no matching line) is absorbed and reported as `none` (`{}`). -/
def get_full_data_from_simplified_nq (store : Option (List RawLine))
    (target_question : Str) : Option StoreRec :=
  match store with
  | none => none
  | some lines =>
    let normalized_target := normalize_question target_question
    (lines.filterMap (fun l => l.parsed)).find? (fun d =>
      let question := pyStrip d.question_text
      !question.isEmpty && (normalize_question question == normalized_target))

/-- Loop body of `process_batch` (merge_datasets_optimized_fixed.py lines 150-222)
for one query of the batch: on an index hit, refetch the full record by question; a
failed fetch is routed to the unmatched stream with the explicit reason
`fetch_failed_reason`, an index miss with `no_match_reason`. -/
def process_batch_step (q : QueryRec) (simplified_nq_minimal : QIndex MinEntry)
    (store : Option (List RawLine)) : List MergedRec × List UnmatchedRec :=
  let question := pyStrip q.question
  let answer := q.answer.getD []
  match qlookup simplified_nq_minimal (normalize_question question) with
  | some _ =>
    match get_full_data_from_simplified_nq store question with
    | some sd =>
      ([⟨question, answer, sd.document_text, sd.document_url, sd.annotations,
         sd.long_answer_candidates, sd.example_id⟩], [])
    | none => ([], [⟨question, answer, some fetch_failed_reason⟩])
  | none => ([], [⟨question, answer, some no_match_reason⟩])

/-- Source `process_batch` (merge_datasets_optimized_fixed.py lines 150-222) over a
batch of parsed query objects, returning the two streams and the (processed,
matches_found) counters. -/
def process_batch : List QueryRec → QIndex MinEntry → Option (List RawLine) →
    List MergedRec × List UnmatchedRec × Nat × Nat
  | [], _, _ => ([], [], 0, 0)
  | q :: qs, idx, store =>
    let s := process_batch_step q idx store
    match process_batch qs idx store with
    | (m, u, p, t) => (s.1 ++ m, s.2 ++ u, p + 1, t + s.1.length)

/-! Chunk Coordinator (main loop of merge_datasets_chunked.py). -/

/-- Why the coordinator loop stopped.  `fuelOut` is a modelling artifact of the fuel
argument and is proved unreachable. -/
inductive StopReason
  | sentinel
  | emptyIndex
  | fuelOut
deriving DecidableEq

/-- The `while True` loop of `main` (merge_datasets_chunked.py lines 184-220),
restricted to a single query dataset: index one window; break as soon as the window
index is empty or the indexer returned the sentinel (`if not questions_index or
next_chunk == -1: break`) - in both cases without running the driver on that window;
otherwise run the driver over the query dataset with this window index and advance
the cursor.  The fuel argument only bounds the recursion and is chosen large enough
in `merge_chunked_main`. -/
def coordGo (store : List RawLine) (queries : List (Option QueryRec)) (chunk_size : Nat) :
    Nat → Nat → List MergedRec × List UnmatchedRec × StopReason
  | 0, _ => ([], [], .fuelOut)
  | fuel + 1, chunk_start =>
    match process_chunk (some store) chunk_start chunk_size with
    | (idx, next) =>
      match next with
      | none => ([], [], .sentinel)
      | some nx =>
        if idx = [] then ([], [], .emptyIndex)
        else
          match process_nq_open_chunk queries idx store 0 chunk_size with
          | (m, u, _, _) =>
            match coordGo store queries chunk_size fuel nx with
            | (m2, u2, r) => (m ++ m2, u ++ u2, r)

/-- The chunked pipeline of merge_datasets_chunked.py `main` on one query dataset:
run the coordinator from the start of the store, accumulating the two output
streams across windows (the source appends to the same output files). -/
def merge_chunked_main (store : List RawLine) (queries : List (Option QueryRec))
    (chunk_size : Nat) : List MergedRec × List UnmatchedRec × StopReason :=
  coordGo store queries chunk_size (store.length + 1) 0

/-- The unbounded pipeline of merge_datasets_optimized_memory.py `main` on one query
dataset: build one index over the whole store, treat an empty index as a fatal
setup failure (`if not questions_index: return`), otherwise run the driver once. -/
def memory_main (store : List RawLine) (queries : List (Option QueryRec)) :
    List MergedRec × List UnmatchedRec :=
  let questions_index := create_minimal_index (some store)
  if questions_index = [] then ([], [])
  else process_nq_open queries questions_index store

/-- Questions of the merged records produced by the chunked pipeline (the matched
set of queries, read off the merged output stream). -/
def chunkedMatched (store : List RawLine) (queries : List (Option QueryRec))
    (chunk_size : Nat) : List Str :=
  (merge_chunked_main store queries chunk_size).1.map (fun m => m.question)

/-- Questions of the merged records produced by the unbounded pipeline. -/
def unboundedMatched (store : List RawLine) (queries : List (Option QueryRec)) : List Str :=
  (memory_main store queries).1.map (fun m => m.question)

/-! Sanity checks of the pipeline models on concrete inputs. -/

/-- Concrete store record used in several concrete computations. -/
def demoRec : StoreRec :=
  ⟨strCodes "what is the capital of france", strCodes "http://x", strCodes "1",
   strCodes "doc", [], []⟩

/-- Concrete query matching `demoRec` by the exact path. -/
def demoQuery : QueryRec :=
  ⟨strCodes "What is the capital of France?", some [strCodes "Paris"]⟩

example : normalize_question (pyStrip demoQuery.question) ≠
    normalize_question (pyStrip demoRec.question_text) := by decide

example : qlookup (create_minimal_index (some [⟨some demoRec⟩]))
    (normalize_question (strCodes "what is the capital of france")) =
    some ⟨strCodes "http://x", strCodes "1", 0⟩ := by decide

example :
    (process_nq_open [some ⟨strCodes "what is the capital of france", some [strCodes "Paris"]⟩]
      (create_minimal_index (some [⟨some demoRec⟩])) [⟨some demoRec⟩]).1.map
        (fun m => m.question) = [strCodes "what is the capital of france"] := by decide

example : chunkedMatched [⟨some demoRec⟩]
    [some ⟨strCodes "what is the capital of france", some [strCodes "Paris"]⟩] 1 =
    [strCodes "what is the capital of france"] := by decide

example : chunkedMatched [⟨some demoRec⟩]
    [some ⟨strCodes "what is the capital of france", some [strCodes "Paris"]⟩] 2 = [] := by decide

/-! Dict lemmas. -/

theorem qlookup_nil {ε : Type} (k : Str) : qlookup ([] : QIndex ε) k = none := rfl

theorem qlookup_cons {ε : Type} (k' k : Str) (v : ε) (idx : QIndex ε) :
    qlookup ((k', v) :: idx) k = if k' = k then some v else qlookup idx k := by
  unfold qlookup
  rw [List.find?_cons]
  by_cases h : k' = k
  · simp [h]
  · have hb : (k' == k) = false := by simp [h]
    simp [hb, h]

theorem qlookup_append {ε : Type} (l1 l2 : QIndex ε) (k : Str) :
    qlookup (l1 ++ l2) k =
      match qlookup l1 k with
      | some v => some v
      | none => qlookup l2 k := by
  induction l1 with
  | nil => rw [List.nil_append, qlookup_nil]
  | cons p l1 ih =>
    rw [List.cons_append]
    rcases p with ⟨k', v⟩
    rw [qlookup_cons, qlookup_cons]
    by_cases h : k' = k
    · simp [h]
    · simp only [if_neg h]
      exact ih

/-! Index characterization: visit-order pairs and last-write-wins lookup. -/

/-- The (key, entry) pairs produced by one indexing scan, in visit order:
one pair per parsed line with a non-empty stripped question, carrying that line's
position as its byte offset. -/
def indexPairs : List RawLine → Nat → List (Str × IndexEntry)
  | [], _ => []
  | l :: ls, pos =>
    match l.parsed with
    | none => indexPairs ls (pos + 1)
    | some d =>
      let question := pyStrip d.question_text
      (if question = [] then [] else
        [(normalize_question question, ⟨d.document_url, d.example_id, pos⟩)]) ++
        indexPairs ls (pos + 1)

theorem create_minimal_index_loop_eq :
    ∀ (lines : List RawLine) (pos : Nat) (acc : QIndex IndexEntry),
    create_minimal_index_loop lines pos acc = (indexPairs lines pos).reverse ++ acc
  | [], pos, acc => by simp [create_minimal_index_loop, indexPairs]
  | l :: ls, pos, acc => by
    cases hp : l.parsed with
    | none =>
      simp only [create_minimal_index_loop, indexPairs, hp]
      exact create_minimal_index_loop_eq ls (pos + 1) acc
    | some d =>
      simp only [create_minimal_index_loop, indexPairs, hp]
      by_cases hq : pyStrip d.question_text = []
      · simp only [if_pos hq, List.nil_append]
        exact create_minimal_index_loop_eq ls (pos + 1) acc
      · simp only [if_neg hq, qinsert]
        rw [create_minimal_index_loop_eq ls (pos + 1) _]
        simp

theorem exists_getLast?_of_ne_nil {α : Type} {l : List α} (h : l ≠ []) :
    ∃ q, l.getLast? = some q := by
  cases hl : l with
  | nil => exact absurd hl h
  | cons a t => exact ⟨(a :: t).getLast (by simp), List.getLast?_eq_getLast _ _⟩

theorem getLast?_cons_of_ne_nil {α : Type} (a : α) {l : List α} (h : l ≠ []) :
    (a :: l).getLast? = l.getLast? := by
  cases l with
  | nil => exact absurd rfl h
  | cons b t => exact List.getLast?_cons_cons

/-- Looking a key up in the reversal of a pair list (the association list a Python
dict builds by repeated assignment) returns the value of the last pair carrying
that key: last-write-wins. -/
theorem qlookup_reverse_getLast {ε : Type} :
    ∀ (ps : List (Str × ε)) (k : Str),
    qlookup ps.reverse k = ((ps.filter (fun p => p.1 == k)).getLast?).map (fun p => p.2)
  | [], k => rfl
  | p :: ps, k => by
    rcases p with ⟨k1, v1⟩
    rw [List.reverse_cons, qlookup_append, qlookup_reverse_getLast ps k, List.filter_cons]
    by_cases h : k1 = k
    · rw [if_pos (by simp [h])]
      by_cases hf : ps.filter (fun p => p.1 == k) = []
      · rw [hf]
        simp [qlookup_cons, h, qlookup_nil]
      · rw [getLast?_cons_of_ne_nil (k1, v1) hf]
        obtain ⟨q, hq⟩ := exists_getLast?_of_ne_nil hf
        simp [hq]
    · rw [if_neg (by simp [h])]
      by_cases hf : ps.filter (fun p => p.1 == k) = []
      · rw [hf]
        simp [qlookup_cons, h, qlookup_nil]
      · obtain ⟨q, hq⟩ := exists_getLast?_of_ne_nil hf
        simp [hq]

/-- With a count larger than the number of lines, the window loop of
`process_chunk` consumes the whole store and returns the same pairs as the
unbounded scan, together with the end-of-store sentinel. -/
theorem process_chunk_loop_all :
    ∀ (lines : List RawLine) (pos r : Nat) (acc : QIndex IndexEntry) (next0 : Nat),
    lines.length < r →
    process_chunk_loop lines pos r acc next0 = ((indexPairs lines pos).reverse ++ acc, none)
  | [], pos, r, acc, next0, h => by
    cases r with
    | zero => omega
    | succ r => simp [process_chunk_loop, indexPairs]
  | l :: ls, pos, r, acc, next0, h => by
    cases r with
    | zero => simp at h
    | succ r =>
      have hlen : ls.length < r := by simp at h; omega
      cases hp : l.parsed with
      | none =>
        simp only [process_chunk_loop, indexPairs, hp]
        exact process_chunk_loop_all ls (pos + 1) (r + 1) acc next0 (by omega)
      | some d =>
        simp only [process_chunk_loop, indexPairs, hp]
        by_cases hq : pyStrip d.question_text = []
        · simp only [if_pos hq, List.nil_append]
          exact process_chunk_loop_all ls (pos + 1) r acc (pos + 1) hlen
        · simp only [if_neg hq, qinsert]
          rw [process_chunk_loop_all ls (pos + 1) r _ (pos + 1) hlen]
          simp

theorem cmi_lookup_eq (lines : List RawLine) (k : Str) :
    qlookup (create_minimal_index (some lines)) k =
      ((indexPairs lines 0).filter (fun p => p.1 == k)).getLast?.map (fun p => p.2) := by
  show qlookup (create_minimal_index_loop lines 0 []) k = _
  rw [create_minimal_index_loop_eq lines 0 [], List.append_nil, qlookup_reverse_getLast]

theorem indexPairs_append :
    ∀ (l1 l2 : List RawLine) (pos : Nat),
    indexPairs (l1 ++ l2) pos = indexPairs l1 pos ++ indexPairs l2 (pos + l1.length)
  | [], l2, pos => by simp [indexPairs]
  | l :: ls, l2, pos => by
    cases hp : l.parsed with
    | none =>
      simp only [List.cons_append, indexPairs, hp, List.append_eq]
      rw [indexPairs_append ls l2 (pos + 1)]
      have hx : pos + 1 + ls.length = pos + (ls.length + 1) := by omega
      simp only [List.length_cons, hx]
    | some d =>
      simp only [List.cons_append, indexPairs, hp, List.append_eq]
      rw [indexPairs_append ls l2 (pos + 1)]
      have hx : pos + 1 + ls.length = pos + (ls.length + 1) := by omega
      simp only [List.length_cons, List.append_assoc, hx]

theorem indexPairs_keys_pos :
    ∀ (lines : List RawLine) (pos pos2 : Nat),
    (indexPairs lines pos).map Prod.fst = (indexPairs lines pos2).map Prod.fst
  | [], _, _ => rfl
  | l :: ls, pos, pos2 => by
    cases hp : l.parsed with
    | none =>
      simp only [indexPairs, hp]
      exact indexPairs_keys_pos ls (pos + 1) (pos2 + 1)
    | some d =>
      simp only [indexPairs, hp]
      by_cases hq : pyStrip d.question_text = []
      · simp only [if_pos hq, List.nil_append]
        exact indexPairs_keys_pos ls (pos + 1) (pos2 + 1)
      · simp only [if_neg hq, List.singleton_append, List.map_cons]
        rw [indexPairs_keys_pos ls (pos + 1) (pos2 + 1)]

theorem cmi_lookup_eq_none_iff (lines : List RawLine) (k : Str) :
    qlookup (create_minimal_index (some lines)) k = none ↔
      k ∉ (indexPairs lines 0).map Prod.fst := by
  rw [cmi_lookup_eq]
  constructor
  · intro h hk
    obtain ⟨p, hp, hpk⟩ := List.mem_map.1 hk
    have hpf : p ∈ (indexPairs lines 0).filter (fun p => p.1 == k) :=
      List.mem_filter.2 ⟨hp, by simp [hpk]⟩
    have hne : (indexPairs lines 0).filter (fun p => p.1 == k) ≠ [] := by
      intro he; rw [he] at hpf; simp at hpf
    obtain ⟨q, hq⟩ := exists_getLast?_of_ne_nil hne
    rw [hq] at h
    simp at h
  · intro h
    have hnil : (indexPairs lines 0).filter (fun p => p.1 == k) = [] := by
      rw [List.filter_eq_nil_iff]
      intro p hp
      intro hpk
      exact h (List.mem_map.2 ⟨p, hp, by simpa using hpk⟩)
    rw [hnil]
    rfl

theorem cmi_processed_append :
    ∀ (l1 l2 : List RawLine),
    create_minimal_index_processed (l1 ++ l2) =
      create_minimal_index_processed l1 + create_minimal_index_processed l2
  | [], l2 => by simp [create_minimal_index_processed]
  | l :: ls, l2 => by
    cases hp : l.parsed with
    | none =>
      simp only [List.cons_append, create_minimal_index_processed, hp]
      exact cmi_processed_append ls l2
    | some d =>
      simp only [List.cons_append, create_minimal_index_processed, hp, List.append_eq]
      rw [cmi_processed_append ls l2]
      omega

/-! Claim C8. -/

/-- C8 counterexample: the claim bundles all three cited normalizers, but the simple
`lower().strip()` normalizer keeps the question mark, so it maps `" Foo? "` and
`"foo"` to different keys, and the aggressive normalizer of process_datasets.py is
not idempotent: it maps `"what is what"` to `"what"` and `"what"` to the empty
string. -/
theorem C8_counterexample :
    normalize_question (strCodes " Foo? ") ≠ normalize_question (strCodes "foo") ∧
    ProcessDatasets.normalize_question
        (ProcessDatasets.normalize_question (strCodes "what is what")) ≠
      ProcessDatasets.normalize_question (strCodes "what is what") := by
  constructor
  · decide
  · decide

/-- C8 amended: every normalizer is a pure function of its input (determinism is
immediate in the embedding); `normalize_text` and the simple `lower().strip()`
`normalize_question` are idempotent; the `" Foo? "`/`"foo"` equation holds for the
two punctuation-stripping normalizers (`normalize_text` of merge_datasets.py and
`normalize_question` of process_datasets.py), but not for the simple normalizer,
and the process_datasets.py normalizer is not idempotent. -/
theorem C8_amended :
    (∀ s : Str, normalize_text (normalize_text s) = normalize_text s) ∧
    (∀ s : Str, normalize_question (normalize_question s) = normalize_question s) ∧
    normalize_text (strCodes " Foo? ") = normalize_text (strCodes "foo") ∧
    ProcessDatasets.normalize_question (strCodes " Foo? ") =
      ProcessDatasets.normalize_question (strCodes "foo") :=
  ⟨normalize_text_idem, normalize_question_idem, by decide, by decide⟩

/-! Claim C10. -/

/-- Query whose JSON parses but whose `answer` field is the empty list. -/
def emptyAnswerQuery : QueryRec := ⟨strCodes "who wrote hamlet", some []⟩

/-- Query with a well-formed one-element answer, for contrast. -/
def normalAnswerQuery : QueryRec := ⟨strCodes "who wrote hamlet", some [strCodes "shakespeare"]⟩

/-- C10: in `process_efficient_qa` (merge_datasets.py), a parsed query line with an
empty `answer` list makes `data.get('answer', [''])[0]` raise IndexError (modelled
by `answerHead = none`) before anything is written; the broad handler absorbs it and
continues with the next line, so the record contributes nothing to either stream and
is not even counted, while the same query with a non-empty answer does produce
output. -/
theorem C10_empty_answer_dropped :
    answerHead emptyAnswerQuery = none ∧
    process_efficient_qa [some emptyAnswerQuery] emptyKwMap = ([], [], 0, 0) ∧
    process_efficient_qa [some emptyAnswerQuery, some normalAnswerQuery] emptyKwMap =
      process_efficient_qa [some normalAnswerQuery] emptyKwMap ∧
    process_efficient_qa [some normalAnswerQuery] emptyKwMap ≠ ([], [], 0, 0) := by
  refine ⟨rfl, by decide, by decide, by decide⟩

/-! Claim C3. -/

/-- C3: the fetchers return an explicit not-found value on every failure mode
(offset past the end of the store, line that does not parse, unreadable store) and
never raise - their embeddings are total functions into `Option` -, and the driver
`process_batch` routes a query whose key is in the index but whose record cannot be
refetched to the unmatched stream as `{question, answer, error}` with the
distinguishing reason string `'Failed to get full data'` (the spec's reason code
`fetch_failed`), writing nothing to the merged stream. -/
theorem C3_fetch_failure_routed :
    (∀ off : Nat, get_full_data none off = none) ∧
    (∀ (lines : List RawLine) (off : Nat), lines.get? off = none →
      get_full_data (some lines) off = none) ∧
    (∀ (lines : List RawLine) (off : Nat) (l : RawLine), lines.get? off = some l →
      l.parsed = none → get_full_data (some lines) off = none) ∧
    (∀ t : Str, get_full_data_from_simplified_nq none t = none) ∧
    (∀ (q : QueryRec) (idx : QIndex MinEntry) (store : Option (List RawLine)) (e : MinEntry),
      qlookup idx (normalize_question (pyStrip q.question)) = some e →
      get_full_data_from_simplified_nq store (pyStrip q.question) = none →
      process_batch_step q idx store =
        ([], [⟨pyStrip q.question, q.answer.getD [], some fetch_failed_reason⟩])) := by
  refine ⟨fun _ => rfl, ?_, ?_, fun _ => rfl, ?_⟩
  · intro lines off h
    simp only [get_full_data, h]
  · intro lines off l h hp
    simp only [get_full_data, h, hp]
  · intro q idx store e hl hf
    simp only [process_batch_step, hl, hf]

/-- Index whose only key is the query key, backed by no store at all. -/
def c3index : QIndex MinEntry := [(strCodes "q", ⟨strCodes "u", strCodes "1", strCodes "q"⟩)]

/-- Query used in the C3 witness. -/
def c3query : QueryRec := ⟨strCodes "q", some [strCodes "a"]⟩

/-- C3 witness: a concrete query whose key is indexed while the store scan finds
nothing, routed to unmatched with the `fetch_failed` reason. -/
theorem C3_witness :
    qlookup c3index (normalize_question (pyStrip c3query.question)) =
      some ⟨strCodes "u", strCodes "1", strCodes "q"⟩ ∧
    get_full_data_from_simplified_nq (some []) (pyStrip c3query.question) = none ∧
    process_batch_step c3query c3index (some []) =
      ([], [⟨pyStrip c3query.question, c3query.answer.getD [], some fetch_failed_reason⟩]) :=
  ⟨by decide, by decide,
    C3_fetch_failure_routed.2.2.2.2 c3query c3index (some [])
      ⟨strCodes "u", strCodes "1", strCodes "q"⟩ (by decide) (by decide)⟩

/-! Claim C1. -/

/-- Index whose only entry points at line 0 of the store. -/
def c1index : QIndex IndexEntry := [(strCodes "q", ⟨strCodes "u", strCodes "1", 0⟩)]

/-- Store whose line 0 no longer parses, so the fetch of the indexed entry fails. -/
def c1store : List RawLine := [⟨none⟩]

/-- Query hitting the index entry of `c1index`. -/
def c1query : QueryRec := ⟨strCodes "q", some [strCodes "a"]⟩

/-- C1 counterexample: the chunked driver reads and counts one query record whose
index hit fails to fetch, and writes no output record at all to either stream - the
query is silently dropped, refuting exactly-one-output-per-query. -/
theorem C1_counterexample :
    process_nq_open_chunk [some c1query] c1index c1store 0 5 = ([], [], 1, 0) := by
  decide

/-- C1 amended: a zero-record input yields empty streams and zero counters in both
drivers; in the chunked/memory driver each parsed query yields exactly one output
record across the two streams except when its index hit's fetch fails, in which
case it yields none; in the fuzzy driver of merge_datasets.py each parsed query
yields one record in the passthrough stream and, when unmatched, a second record in
the unmatched stream (two in total), except that a query whose present `answer`
list is empty yields none; and the drivers accumulate these step outputs
record-by-record. -/
theorem C1_amended :
    (∀ (idx : QIndex IndexEntry) (store : List RawLine) (chunk_size : Nat),
      process_nq_open_chunk [] idx store 0 chunk_size = ([], [], 0, 0)) ∧
    (∀ m : KwMap, process_efficient_qa [] m = ([], [], 0, 0)) ∧
    (∀ (q : QueryRec) (idx : QIndex IndexEntry) (store : List RawLine),
      (process_open_step q idx store).1.length + (process_open_step q idx store).2.length =
        (match qlookup idx (normalize_question (pyStrip q.question)) with
          | none => 1
          | some e =>
            match get_full_data (some store) e.byte_offset with
            | some _ => 1
            | none => 0)) ∧
    (∀ (q : QueryRec) (m : KwMap),
      (process_efficient_qa_step q m).1.length + (process_efficient_qa_step q m).2.1.length =
        (match answerHead q with
          | none => 0
          | some _ =>
            match find_matches (pyStrip q.question) m (9 / 10) with
            | _ :: _ => 1
            | [] => 2)) ∧
    (∀ (q : QueryRec) (qs : List (Option QueryRec)) (idx : QIndex IndexEntry)
        (store : List RawLine) (r : Nat),
      process_nq_open_chunk_loop (some q :: qs) idx store (r + 1) =
        ((process_open_step q idx store).1 ++ (process_nq_open_chunk_loop qs idx store r).1,
         (process_open_step q idx store).2 ++ (process_nq_open_chunk_loop qs idx store r).2.1,
         (process_nq_open_chunk_loop qs idx store r).2.2.1 + 1,
         (process_nq_open_chunk_loop qs idx store r).2.2.2 +
           (process_open_step q idx store).1.length)) := by
  refine ⟨fun _ _ cs => by cases cs <;> rfl, fun _ => rfl, ?_, ?_, ?_⟩
  · intro q idx store
    unfold process_open_step
    cases hl : qlookup idx (normalize_question (pyStrip q.question)) with
    | none => simp [hl]
    | some e =>
      cases hf : get_full_data (some store) e.byte_offset with
      | none => simp [hl, hf]
      | some sd => simp [hl, hf]
  · intro q m
    unfold process_efficient_qa_step
    cases ha : answerHead q with
    | none => simp [ha]
    | some ans =>
      cases hm : find_matches (pyStrip q.question) m (9 / 10) with
      | nil => simp [ha, hm]
      | cons b rest => simp [ha, hm]
  · intro q qs idx store r
    rcases h : process_nq_open_chunk_loop qs idx store r with ⟨m, u, p, t⟩
    simp [process_nq_open_chunk_loop, h]

/-! Coordinator progress lemmas. -/

/-- The window loop either leaves index and cursor untouched or advances the cursor
strictly past the window start. -/
theorem process_chunk_loop_next :
    ∀ (lines : List RawLine) (pos r : Nat) (acc : QIndex IndexEntry) (next0 : Nat)
      (idx : QIndex IndexEntry) (nx : Nat),
    process_chunk_loop lines pos r acc next0 = (idx, some nx) →
    (nx = next0 ∧ idx = acc) ∨ pos + 1 ≤ nx
  | lines, pos, 0, acc, next0, idx, nx => by
    intro h
    simp only [process_chunk_loop, Prod.mk.injEq, Option.some.injEq] at h
    exact Or.inl ⟨h.2.symm, h.1.symm⟩
  | [], pos, r + 1, acc, next0, idx, nx => by
    intro h
    simp only [process_chunk_loop, Prod.mk.injEq] at h
    exact absurd h.2 (by simp)
  | l :: ls, pos, r + 1, acc, next0, idx, nx => by
    intro h
    cases hp : l.parsed with
    | none =>
      rw [show process_chunk_loop (l :: ls) pos (r + 1) acc next0 =
          process_chunk_loop ls (pos + 1) (r + 1) acc next0 from by
        simp [process_chunk_loop, hp]] at h
      rcases process_chunk_loop_next ls (pos + 1) (r + 1) acc next0 idx nx h with h2 | h2
      · exact Or.inl h2
      · exact Or.inr (by omega)
    | some d =>
      rw [show process_chunk_loop (l :: ls) pos (r + 1) acc next0 =
          process_chunk_loop ls (pos + 1) r
            (if pyStrip d.question_text = [] then acc else
              qinsert acc (normalize_question (pyStrip d.question_text))
                ⟨d.document_url, d.example_id, pos⟩) (pos + 1) from by
        simp [process_chunk_loop, hp]] at h
      rcases process_chunk_loop_next ls (pos + 1) r _ (pos + 1) idx nx h with h2 | h2
      · exact Or.inr (by omega)
      · exact Or.inr (by omega)

/-- The coordinator with fuel beyond the store length never runs out of fuel: it
always stops through one of the two source break conditions. -/
theorem coordGo_no_fuelOut (store : List RawLine) (queries : List (Option QueryRec))
    (C : Nat) :
    ∀ (fuel start : Nat), store.length ≤ fuel + start →
    (coordGo store queries C (fuel + 1) start).2.2 ≠ StopReason.fuelOut := by
  intro fuel
  induction fuel with
  | zero =>
    intro start hst
    have hdrop : store.drop start = [] := List.drop_eq_nil_of_le (by omega)
    show (coordGo store queries C 1 start).2.2 ≠ _
    unfold coordGo
    show ((match process_chunk_loop (store.drop start) start C [] start with
      | (idx, next) => _ : List MergedRec × List UnmatchedRec × StopReason)).2.2 ≠ _
    rw [hdrop]
    cases C with
    | zero => simp [process_chunk_loop]
    | succ c => simp [process_chunk_loop]
  | succ f ih =>
    intro start hst
    show (coordGo store queries C (f + 1 + 1) start).2.2 ≠ _
    unfold coordGo
    rcases hpc : process_chunk (some store) start C with ⟨idx, next⟩
    simp only [hpc]
    cases next with
    | none => simp
    | some nx =>
      by_cases hidx : idx = []
      · simp [hidx]
      · have hprog : start + 1 ≤ nx := by
          have hpc2 : process_chunk_loop (store.drop start) start C [] start = (idx, some nx) := hpc
          rcases process_chunk_loop_next (store.drop start) start C [] start idx nx hpc2 with
            ⟨_, hacc⟩ | h2
          · exact absurd hacc hidx
          · exact h2
        have hr := ih nx (by omega)
        simpa [hidx] using hr

/-! Claim C9. -/

/-- Keyword-disjointness of a query question from one store line: the hypothesis of
the C9 scenario, stated decidably so concrete instances evaluate. -/
def keywordDisjointB (q : Str) (l : RawLine) : Bool :=
  match l.parsed with
  | none => true
  | some d => decide (∀ kw ∈ get_keywords q, kw ∉ get_keywords (pyStrip d.question_text))

theorem process_nq_file_no_kw :
    ∀ (recs : List RawLine) (m : KwMap) (kw : Str),
    (∀ l ∈ recs, ∀ d : StoreRec, l.parsed = some d →
      kw ∉ get_keywords (pyStrip d.question_text)) →
    process_nq_file recs m kw = m kw
  | [], m, kw, _ => rfl
  | l :: ls, m, kw, h => by
    have hls : ∀ x ∈ ls, ∀ d : StoreRec, x.parsed = some d →
        kw ∉ get_keywords (pyStrip d.question_text) :=
      fun x hx => h x (List.mem_cons_of_mem l hx)
    cases hp : l.parsed with
    | none =>
      simp only [process_nq_file, hp]
      exact process_nq_file_no_kw ls m kw hls
    | some d =>
      simp only [process_nq_file, hp]
      by_cases hq : pyStrip d.question_text = [] ∨ d.document_url = []
      · rw [if_pos hq]
        exact process_nq_file_no_kw ls m kw hls
      · rw [if_neg hq]
        rw [process_nq_file_no_kw ls _ kw hls]
        unfold kwmap_add
        rw [if_neg (h l (List.mem_cons_self l ls) d hp)]

theorem find_matches_nil {t : Str} {qbk : KwMap} (θ : ℚ)
    (h : ∀ kw ∈ get_keywords t, qbk kw = []) : find_matches t qbk θ = [] := by
  unfold find_matches
  have haux : ∀ (tks : List Str) (cands : List (Str × Str × ℚ)),
      (∀ kw ∈ tks, qbk kw = []) →
      tks.foldl (fun cands keyword =>
        if qbk keyword = [] then cands
        else (qbk keyword).foldl (fun cands e =>
          let similarity := calculate_similarity (get_keywords t) e.2.2
          if θ ≤ similarity then setCand cands e.1 e.2.1 similarity else cands) cands)
        cands = cands := by
    intro tks
    induction tks with
    | nil => intro cands _; rfl
    | cons kw tks ih =>
      intro cands hk
      rw [List.foldl_cons, if_pos (hk kw (List.mem_cons_self kw tks))]
      exact ih cands (fun x hx => hk x (List.mem_cons_of_mem kw hx))
  show sortBySimDesc (List.foldl (fun cands keyword =>
      if qbk keyword = [] then cands
      else (qbk keyword).foldl (fun cands e =>
        let similarity := calculate_similarity (get_keywords t) e.2.2
        if θ ≤ similarity then setCand cands e.1 e.2.1 similarity else cands) cands)
      [] (get_keywords t)) = []
  rw [haux (get_keywords t) [] h]
  rfl

/-- Store used in the C9 scenario: one record whose keyword set is
`{capital, france}`. -/
def c9recs : List RawLine :=
  [⟨some ⟨strCodes "capital of france", strCodes "u", strCodes "1", [], [], []⟩⟩]

/-- Query of the C9 scenario, sharing no keyword with any indexed entry. -/
def c9query : QueryRec := ⟨strCodes "who sings rocksteady", some [strCodes "x"]⟩

/-- C9 counterexample: the unmatched record emitted by merge_datasets.py for a
keyword-disjoint query carries no reason key at all (`error = none`), not the
reason `no_match`; the only `no_match` reason string in the repository
(`'No match found'`) is written by the exact-match-only optimized_fixed variant. -/
theorem C9_counterexample :
    (process_efficient_qa [some c9query] (process_nq_file c9recs emptyKwMap)).2.1.map
      (fun u => u.error) = [none] ∧
    (none : Option Str) ≠ some no_match_reason := by
  exact ⟨by decide, by decide⟩

/-- C9 amended: for a query sharing no keyword with any indexed store entry the
fuzzy path produces no candidate whatever the threshold, and merge_datasets.py
emits the query on the unmatched stream - but as a bare `{question, answer}` record
with no `no_match` reason annotation (and it also writes the query to the
passthrough stream, unmodified). -/
theorem C9_amended :
    ∀ (recs : List RawLine) (q : QueryRec) (ans : Str),
    answerHead q = some ans →
    (∀ l ∈ recs, keywordDisjointB (pyStrip q.question) l = true) →
    (∀ threshold : ℚ,
      find_matches (pyStrip q.question) (process_nq_file recs emptyKwMap) threshold = []) ∧
    process_efficient_qa_step q (process_nq_file recs emptyKwMap) =
      ([⟨q.question, q.answer, none, none, none⟩], [⟨pyStrip q.question, ans, none⟩], 1, 0) := by
  intro recs q ans hans hdis
  have hkw : ∀ kw ∈ get_keywords (pyStrip q.question),
      process_nq_file recs emptyKwMap kw = [] := by
    intro kw hkwm
    refine process_nq_file_no_kw recs emptyKwMap kw ?_
    intro l hl d hd
    have hb := hdis l hl
    unfold keywordDisjointB at hb
    rw [hd] at hb
    exact of_decide_eq_true hb kw hkwm
  have hfm : ∀ threshold : ℚ,
      find_matches (pyStrip q.question) (process_nq_file recs emptyKwMap) threshold = [] :=
    fun θ => find_matches_nil θ hkw
  refine ⟨hfm, ?_⟩
  unfold process_efficient_qa_step
  rw [hans]
  simp [hfm (9 / 10)]

/-- C9 witness: a concrete keyword-disjoint query against a one-record store is
routed to the unmatched stream as a bare record, together with a passthrough copy. -/
theorem C9_witness :
    answerHead c9query = some (strCodes "x") ∧
    c9recs.all (fun l => keywordDisjointB (pyStrip c9query.question) l) = true ∧
    process_efficient_qa_step c9query (process_nq_file c9recs emptyKwMap) =
      ([⟨c9query.question, c9query.answer, none, none, none⟩],
       [⟨pyStrip c9query.question, strCodes "x", none⟩], 1, 0) :=
  ⟨rfl, by decide,
    (C9_amended c9recs c9query (strCodes "x") rfl (by decide)).2⟩

/-! Index-entry provenance, towards the chunked-vs-unbounded comparison. -/

/-- An index entry is good for a store when its byte offset points at a parsed line
whose non-empty stripped question normalizes to the entry's key. -/
def GoodEntry (store : List RawLine) (k : Str) (e : IndexEntry) : Prop :=
  ∃ l d, store.get? e.byte_offset = some l ∧ l.parsed = some d ∧
    pyStrip d.question_text ≠ [] ∧ normalize_question (pyStrip d.question_text) = k

theorem get?_of_drop_eq_cons :
    ∀ {α : Type} (store : List α) (pos : Nat) (l : α) (ls : List α),
    store.drop pos = l :: ls → store.get? pos = some l ∧ store.drop (pos + 1) = ls
  | _, [], pos, l, ls, h => by rw [List.drop_nil] at h; exact absurd h (by simp)
  | _, s :: ss, 0, l, ls, h => by
    rw [List.drop_zero] at h
    cases h
    exact ⟨rfl, rfl⟩
  | _, s :: ss, pos + 1, l, ls, h => by
    rw [List.drop_succ_cons] at h
    obtain ⟨h1, h2⟩ := get?_of_drop_eq_cons ss pos l ls h
    exact ⟨h1, h2⟩

theorem process_chunk_loop_good (store : List RawLine) :
    ∀ (lines : List RawLine) (pos r : Nat) (acc : QIndex IndexEntry) (next0 : Nat),
    lines = store.drop pos →
    (∀ k e, qlookup acc k = some e → GoodEntry store k e) →
    ∀ (k : Str) (e : IndexEntry),
      qlookup (process_chunk_loop lines pos r acc next0).1 k = some e → GoodEntry store k e
  | lines, pos, 0, acc, next0 => fun _ hacc k e h =>
    hacc k e (by simpa [process_chunk_loop] using h)
  | [], pos, r + 1, acc, next0 => fun _ hacc k e h =>
    hacc k e (by simpa [process_chunk_loop] using h)
  | l :: ls, pos, r + 1, acc, next0 => fun halign hacc k e h => by
    obtain ⟨hget, hdrop⟩ := get?_of_drop_eq_cons store pos l ls halign.symm
    cases hp : l.parsed with
    | none =>
      rw [show process_chunk_loop (l :: ls) pos (r + 1) acc next0 =
          process_chunk_loop ls (pos + 1) (r + 1) acc next0 from by
        simp [process_chunk_loop, hp]] at h
      exact process_chunk_loop_good store ls (pos + 1) (r + 1) acc next0 hdrop.symm hacc k e h
    | some d =>
      rw [show process_chunk_loop (l :: ls) pos (r + 1) acc next0 =
          process_chunk_loop ls (pos + 1) r
            (if pyStrip d.question_text = [] then acc else
              qinsert acc (normalize_question (pyStrip d.question_text))
                ⟨d.document_url, d.example_id, pos⟩) (pos + 1) from by
        simp [process_chunk_loop, hp]] at h
      refine process_chunk_loop_good store ls (pos + 1) r _ (pos + 1) hdrop.symm ?_ k e h
      intro k2 e2 h2
      by_cases hq : pyStrip d.question_text = []
      · rw [if_pos hq] at h2
        exact hacc k2 e2 h2
      · rw [if_neg hq] at h2
        rw [show qinsert acc (normalize_question (pyStrip d.question_text))
            ⟨d.document_url, d.example_id, pos⟩ =
            (normalize_question (pyStrip d.question_text),
              (⟨d.document_url, d.example_id, pos⟩ : IndexEntry)) :: acc from rfl,
          qlookup_cons] at h2
        by_cases hk : normalize_question (pyStrip d.question_text) = k2
        · rw [if_pos hk] at h2
          refine ⟨l, d, ?_, hp, hq, hk⟩
          rw [← Option.some.inj h2]
          exact hget
        · rw [if_neg hk] at h2
          exact hacc k2 e2 h2

theorem indexPairs_good (store : List RawLine) :
    ∀ (lines : List RawLine) (pos : Nat), lines = store.drop pos →
    ∀ (k : Str) (e : IndexEntry), (k, e) ∈ indexPairs lines pos → GoodEntry store k e
  | [], pos => fun _ k e h => by simp [indexPairs] at h
  | l :: ls, pos => fun halign k e h => by
    obtain ⟨hget, hdrop⟩ := get?_of_drop_eq_cons store pos l ls halign.symm
    cases hp : l.parsed with
    | none =>
      rw [show indexPairs (l :: ls) pos = indexPairs ls (pos + 1) from by
        simp [indexPairs, hp]] at h
      exact indexPairs_good store ls (pos + 1) hdrop.symm k e h
    | some d =>
      rw [show indexPairs (l :: ls) pos =
          (if pyStrip d.question_text = [] then [] else
            [(normalize_question (pyStrip d.question_text),
              (⟨d.document_url, d.example_id, pos⟩ : IndexEntry))]) ++
            indexPairs ls (pos + 1) from by simp [indexPairs, hp]] at h
      rcases List.mem_append.1 h with h1 | h1
      · by_cases hq : pyStrip d.question_text = []
        · rw [if_pos hq] at h1
          simp at h1
        · rw [if_neg hq] at h1
          rw [List.mem_singleton] at h1
          obtain ⟨hk, he⟩ := Prod.mk.inj h1.symm
          exact ⟨l, d, by rw [← he]; exact hget, hp, hq, hk⟩
      · exact indexPairs_good store ls (pos + 1) hdrop.symm k e h1

theorem indexPairs_complete :
    ∀ (lines : List RawLine) (pos : Nat) (l : RawLine) (d : StoreRec),
    l ∈ lines → l.parsed = some d → pyStrip d.question_text ≠ [] →
    ∃ p ∈ indexPairs lines pos, p.1 = normalize_question (pyStrip d.question_text)
  | [], pos, l, d => fun hl _ _ => by simp at hl
  | l0 :: ls, pos, l, d => fun hl hp hq => by
    rcases List.mem_cons.1 hl with rfl | hl2
    · refine ⟨(normalize_question (pyStrip d.question_text),
        ⟨d.document_url, d.example_id, pos⟩), ?_, rfl⟩
      rw [show indexPairs (l :: ls) pos =
          (if pyStrip d.question_text = [] then [] else
            [(normalize_question (pyStrip d.question_text),
              (⟨d.document_url, d.example_id, pos⟩ : IndexEntry))]) ++
            indexPairs ls (pos + 1) from by simp [indexPairs, hp]]
      rw [if_neg hq]
      exact List.mem_append_left _ (List.mem_singleton.2 rfl)
    · obtain ⟨p, hpm, hpk⟩ := indexPairs_complete ls (pos + 1) l d hl2 hp hq
      refine ⟨p, ?_, hpk⟩
      cases hp0 : l0.parsed with
      | none =>
        rw [show indexPairs (l0 :: ls) pos = indexPairs ls (pos + 1) from by
          simp [indexPairs, hp0]]
        exact hpm
      | some d0 =>
        rw [show indexPairs (l0 :: ls) pos =
            (if pyStrip d0.question_text = [] then [] else
              [(normalize_question (pyStrip d0.question_text),
                (⟨d0.document_url, d0.example_id, pos⟩ : IndexEntry))]) ++
              indexPairs ls (pos + 1) from by simp [indexPairs, hp0]]
        exact List.mem_append_right _ hpm

theorem cmi_lookup_isSome_of {lines : List RawLine} {k : Str}
    (h : ∃ p ∈ indexPairs lines 0, p.1 = k) :
    ∃ e, qlookup (create_minimal_index (some lines)) k = some e := by
  obtain ⟨p, hpm, hpk⟩ := h
  have hf : p ∈ (indexPairs lines 0).filter (fun p => p.1 == k) :=
    List.mem_filter.2 ⟨hpm, by simp [hpk]⟩
  have hne : (indexPairs lines 0).filter (fun p => p.1 == k) ≠ [] := by
    intro he
    rw [he] at hf
    simp at hf
  obtain ⟨q, hq⟩ := exists_getLast?_of_ne_nil hne
  refine ⟨q.2, ?_⟩
  rw [cmi_lookup_eq, hq]
  rfl

theorem cmi_lookup_mem {lines : List RawLine} {k : Str} {e : IndexEntry}
    (h : qlookup (create_minimal_index (some lines)) k = some e) :
    (k, e) ∈ indexPairs lines 0 := by
  rw [cmi_lookup_eq] at h
  cases hl : ((indexPairs lines 0).filter (fun p => p.1 == k)).getLast? with
  | none => rw [hl] at h; simp at h
  | some p =>
    rw [hl] at h
    have hpe : p.2 = e := by simpa using h
    have hpf := mem_of_getLast?_eq hl
    have hpm := (List.mem_filter.1 hpf).1
    have hpk : p.1 = k := by
      have := (List.mem_filter.1 hpf).2
      simpa using this
    have : p = (k, e) := by
      rcases p with ⟨pk, pe⟩
      simp only at hpe hpk
      rw [hpe, hpk]
    rw [← this]
    exact hpm

/-! Driver provenance lemmas. -/

/-- Every merged record the chunked driver produces comes from some query line whose
key hit the window index and whose fetch succeeded. -/
theorem pnoc_loop_merged_mem :
    ∀ (queries : List (Option QueryRec)) (idx : QIndex IndexEntry) (store : List RawLine)
      (r : Nat) (mr : MergedRec),
    mr ∈ (process_nq_open_chunk_loop queries idx store r).1 →
    ∃ q : QueryRec, some q ∈ queries ∧ ∃ e sd,
      qlookup idx (normalize_question (pyStrip q.question)) = some e ∧
      get_full_data (some store) e.byte_offset = some sd ∧
      mr.question = pyStrip q.question
  | queries, idx, store, 0, mr => fun h => by simp [process_nq_open_chunk_loop] at h
  | [], idx, store, r + 1, mr => fun h => by simp [process_nq_open_chunk_loop] at h
  | none :: qs, idx, store, r + 1, mr => fun h => by
    rw [show process_nq_open_chunk_loop (none :: qs) idx store (r + 1) =
        process_nq_open_chunk_loop qs idx store (r + 1) from by
      simp [process_nq_open_chunk_loop]] at h
    obtain ⟨q, hq, rest⟩ := pnoc_loop_merged_mem qs idx store (r + 1) mr h
    exact ⟨q, List.mem_cons_of_mem _ hq, rest⟩
  | some q0 :: qs, idx, store, r + 1, mr => fun h => by
    have hsplit : mr ∈ (process_open_step q0 idx store).1 ∨
        mr ∈ (process_nq_open_chunk_loop qs idx store r).1 := by
      rw [show process_nq_open_chunk_loop (some q0 :: qs) idx store (r + 1) =
          ((process_open_step q0 idx store).1 ++ (process_nq_open_chunk_loop qs idx store r).1,
           (process_open_step q0 idx store).2 ++ (process_nq_open_chunk_loop qs idx store r).2.1,
           (process_nq_open_chunk_loop qs idx store r).2.2.1 + 1,
           (process_nq_open_chunk_loop qs idx store r).2.2.2 +
             (process_open_step q0 idx store).1.length) from by
        rcases hrec : process_nq_open_chunk_loop qs idx store r with ⟨m, u, p, t⟩
        simp [process_nq_open_chunk_loop, hrec]] at h
      exact List.mem_append.1 h
    rcases hsplit with h1 | h1
    · refine ⟨q0, List.mem_cons_self _ _, ?_⟩
      unfold process_open_step at h1
      cases hl : qlookup idx (normalize_question (pyStrip q0.question)) with
      | none => simp [hl] at h1
      | some e =>
        cases hf : get_full_data (some store) e.byte_offset with
        | none => simp [hl, hf] at h1
        | some sd =>
          simp only [hl, hf] at h1
          rw [List.mem_singleton] at h1
          exact ⟨e, sd, by simp [hl], by simp [hf], by rw [h1]⟩
    · obtain ⟨q, hq, rest⟩ := pnoc_loop_merged_mem qs idx store r mr h1
      exact ⟨q, List.mem_cons_of_mem _ hq, rest⟩

/-- The memory driver matches every query of its list whose key is in the index and
whose fetch succeeds. -/
theorem process_nq_open_matched :
    ∀ (queries : List (Option QueryRec)) (idx : QIndex IndexEntry) (store : List RawLine)
      (q : QueryRec) (e : IndexEntry) (sd : StoreRec),
    some q ∈ queries →
    qlookup idx (normalize_question (pyStrip q.question)) = some e →
    get_full_data (some store) e.byte_offset = some sd →
    pyStrip q.question ∈ (process_nq_open queries idx store).1.map (fun m => m.question)
  | [], idx, store, q, e, sd => fun hq _ _ => by simp at hq
  | none :: qs, idx, store, q, e, sd => fun hq hl hf => by
    rcases List.mem_cons.1 hq with h0 | h0
    · exact absurd h0 (by simp)
    · rw [show process_nq_open (none :: qs) idx store = process_nq_open qs idx store from by
        simp [process_nq_open]]
      exact process_nq_open_matched qs idx store q e sd h0 hl hf
  | some q0 :: qs, idx, store, q, e, sd => fun hq hl hf => by
    have hcons : process_nq_open (some q0 :: qs) idx store =
        ((process_open_step q0 idx store).1 ++ (process_nq_open qs idx store).1,
         (process_open_step q0 idx store).2 ++ (process_nq_open qs idx store).2) := by
      simp [process_nq_open]
    rcases List.mem_cons.1 hq with h0 | h0
    · have hq0 : q0 = q := by injection h0.symm
      subst hq0
      rw [hcons]
      simp only [List.map_append, List.mem_append]
      left
      unfold process_open_step
      simp only [hl, hf]
      simp
    · rw [hcons]
      simp only [List.map_append, List.mem_append]
      right
      exact process_nq_open_matched qs idx store q e sd h0 hl hf

/-- Every merged record the coordinator accumulates was produced by the driver
running against some window index the indexer returned with a non-sentinel cursor. -/
theorem coordGo_merged_mem (store : List RawLine) (queries : List (Option QueryRec))
    (C : Nat) :
    ∀ (fuel start : Nat) (mr : MergedRec), mr ∈ (coordGo store queries C fuel start).1 →
    ∃ (st : Nat) (idx : QIndex IndexEntry) (nx : Nat),
      process_chunk (some store) st C = (idx, some nx) ∧
      mr ∈ (process_nq_open_chunk queries idx store 0 C).1 := by
  intro fuel
  induction fuel with
  | zero => intro start mr h; simp [coordGo] at h
  | succ f ih =>
    intro start mr h
    have hsucc : coordGo store queries C (f + 1) start =
        (match process_chunk (some store) start C with
          | (idx, next) =>
            match next with
            | none => ([], [], StopReason.sentinel)
            | some nx =>
              if idx = [] then ([], [], StopReason.emptyIndex)
              else
                match process_nq_open_chunk queries idx store 0 C with
                | (m, u, _, _) =>
                  match coordGo store queries C f nx with
                  | (m2, u2, r) => (m ++ m2, u ++ u2, r)) := by
      simp only [coordGo]
    rw [hsucc] at h
    rcases hpc : process_chunk (some store) start C with ⟨idx, next⟩
    rw [hpc] at h
    cases next with
    | none => simp at h
    | some nx =>
      by_cases hidx : idx = []
      · simp [hidx] at h
      · rcases hdrv : process_nq_open_chunk queries idx store 0 C with ⟨m, u, p, t⟩
        rcases hrec : coordGo store queries C f nx with ⟨m2, u2, r⟩
        simp only [hidx, if_false, hdrv, hrec] at h
        rcases List.mem_append.1 h with h1 | h1
        · exact ⟨start, idx, nx, hpc, by rw [hdrv]; exact h1⟩
        · obtain ⟨st, idx2, nx2, hpc2, hm2⟩ := ih nx mr (by rw [hrec]; exact h1)
          exact ⟨st, idx2, nx2, hpc2, hm2⟩

/-! Claim C2. -/

/-- C2 amended (containment direction): every query the chunked pipeline matches is
also matched by the unbounded pipeline. -/
theorem C2_amended :
    ∀ (store : List RawLine) (queries : List (Option QueryRec)) (chunk_size : Nat) (x : Str),
    x ∈ chunkedMatched store queries chunk_size → x ∈ unboundedMatched store queries := by
  intro store queries C x hx
  unfold chunkedMatched at hx
  obtain ⟨mr, hmr, rfl⟩ := List.mem_map.1 hx
  obtain ⟨st, idx, nx, hpc, hmem⟩ := coordGo_merged_mem store queries C _ 0 mr hmr
  obtain ⟨q, hq, e, sd, hl, hf, hquest⟩ :=
    pnoc_loop_merged_mem (queries.drop 0) idx store C mr hmem
  rw [List.drop_zero] at hq
  have hgood : GoodEntry store (normalize_question (pyStrip q.question)) e := by
    have hpc2 : process_chunk_loop (store.drop st) st C [] st = (idx, some nx) := hpc
    refine process_chunk_loop_good store (store.drop st) st C [] st rfl
      (fun k0 e0 h0 => by rw [qlookup_nil] at h0; exact absurd h0 (by simp)) _ e ?_
    rw [hpc2]
    exact hl
  obtain ⟨l, d, hget, hpars, hne, hkey⟩ := hgood
  have hlmem : l ∈ store := by
    have hlt : e.byte_offset < store.length := by
      by_contra hge
      rw [List.get?_eq_none.2 (by omega)] at hget
      exact absurd hget (by simp)
    exact List.get?_mem hget
  obtain ⟨p, hpmem, hpk⟩ := indexPairs_complete store 0 l d hlmem hpars hne
  obtain ⟨e2, he2⟩ := cmi_lookup_isSome_of ⟨p, hpmem, by rw [hpk, hkey]⟩
  have he2good : GoodEntry store (normalize_question (pyStrip q.question)) e2 :=
    indexPairs_good store store 0 (by rw [List.drop_zero]) _ e2 (cmi_lookup_mem he2)
  obtain ⟨l2, d2, hget2, hpars2, _, _⟩ := he2good
  have hf2 : get_full_data (some store) e2.byte_offset = some d2 := by
    simp only [get_full_data, hget2, hpars2]
  have hidxne : create_minimal_index (some store) ≠ [] := by
    intro h0
    rw [h0, qlookup_nil] at he2
    exact absurd he2 (by simp)
  unfold unboundedMatched memory_main
  rw [if_neg hidxne]
  rw [hquest]
  exact process_nq_open_matched queries _ store q e2 d2 hq he2 hf2

/-- One-record store of the C2 scenario. -/
def c2store : List RawLine := [⟨some ⟨strCodes "q", strCodes "u", strCodes "1", [], [], []⟩⟩]

/-- One-query dataset of the C2 scenario, matching the record by the exact path. -/
def c2queries : List (Option QueryRec) := [some ⟨strCodes "q", some [strCodes "a"]⟩]

/-- C2 counterexample: with chunk size 2 the single-record store fits in the first
window, the indexer returns the sentinel, and `main` breaks before ever running the
driver - the chunked matched set is empty while the unbounded pipeline matches the
query, so the two matched sets differ. -/
theorem C2_counterexample :
    chunkedMatched c2store c2queries 2 = [] ∧
    unboundedMatched c2store c2queries = [strCodes "q"] ∧
    chunkedMatched c2store c2queries 2 ≠ unboundedMatched c2store c2queries := by
  exact ⟨by decide, by decide, by decide⟩

/-- C2 witness: with chunk size 1 the same store is a full window, the chunked
pipeline matches the query, and the containment theorem places that query in the
unbounded pipeline's matched set as well. -/
theorem C2_witness :
    strCodes "q" ∈ chunkedMatched c2store c2queries 1 ∧
    strCodes "q" ∈ unboundedMatched c2store c2queries :=
  ⟨by decide, C2_amended c2store c2queries 1 (strCodes "q") (by decide)⟩

/-! Claim C7. -/

/-- Store whose first window (chunk size 1) contains one parsed record with an empty
question, followed by a perfectly good record. -/
def c7store : List RawLine :=
  [⟨some ⟨[], strCodes "u1", strCodes "1", [], [], []⟩⟩,
   ⟨some ⟨strCodes "q2", strCodes "u2", strCodes "2", [], [], []⟩⟩]

/-- C7 counterexample: with chunk size 1 the first window of `c7store` yields an
empty partial index while the indexer returns cursor 1, not the sentinel; the
coordinator nevertheless stops (`if not questions_index ... break`), so the second
record - which the unbounded indexer does index - is never indexed or matched. -/
theorem C7_counterexample :
    process_chunk (some c7store) 0 1 = ([], some 1) ∧
    merge_chunked_main c7store [some ⟨strCodes "q2", some [strCodes "a"]⟩] 1 =
      ([], [], StopReason.emptyIndex) ∧
    qlookup (create_minimal_index (some c7store)) (strCodes "q2") =
      some ⟨strCodes "u2", strCodes "2", 1⟩ := by
  exact ⟨by decide, by decide, by decide⟩

/-- C7 amended: the coordinator always terminates through one of the two source
break conditions - the sentinel, or a window whose partial index is empty -; an
empty intermediate window therefore stops the whole run (leaving the rest of the
store unindexed), and in both cases the final window's index is discarded without
the driver being run on it. -/
theorem C7_amended (store : List RawLine) (queries : List (Option QueryRec))
    (chunk_size : Nat) :
    (merge_chunked_main store queries chunk_size).2.2 = StopReason.sentinel ∨
    (merge_chunked_main store queries chunk_size).2.2 = StopReason.emptyIndex := by
  have h := coordGo_no_fuelOut store queries chunk_size store.length 0 (by omega)
  have he : merge_chunked_main store queries chunk_size =
      coordGo store queries chunk_size (store.length + 1) 0 := rfl
  rw [he]
  cases hr : (coordGo store queries chunk_size (store.length + 1) 0).2.2 with
  | sentinel => exact Or.inl rfl
  | emptyIndex => exact Or.inr rfl
  | fuelOut => exact absurd hr h

/-! Claim C6. -/

/-- C6 counterexample: an unreadable store is not a fatal, propagated error.  Both
indexers absorb the failure: `process_chunk` on an unreadable store returns the
empty index together with the end-of-store sentinel, and `create_minimal_index`
returns the empty partial index - in both cases indistinguishable from a
successfully read empty store. -/
theorem C6_counterexample :
    process_chunk none 0 5 = ([], none) ∧
    process_chunk (some []) 0 5 = ([], none) ∧
    create_minimal_index none = [] ∧
    create_minimal_index (some []) = [] := by
  exact ⟨rfl, rfl, rfl, rfl⟩

/-- C6 amended: a malformed line is indeed skipped without aborting the indexing
scan - it changes neither which keys end up indexed nor the `processed` counter
(which counts only parsed lines, so skipped lines are not counted; the memory
variant merely logs them) - but an unreadable store is not fatal and does not
propagate: `process_chunk` absorbs it into an empty index plus the end-of-store
sentinel and `create_minimal_index` into the partial index built so far. -/
theorem C6_amended :
    (∀ (pre post : List RawLine) (bad : RawLine), bad.parsed = none →
      (∀ k : Str,
        (qlookup (create_minimal_index (some (pre ++ bad :: post))) k = none ↔
         qlookup (create_minimal_index (some (pre ++ post))) k = none)) ∧
      create_minimal_index_processed (pre ++ bad :: post) =
        create_minimal_index_processed (pre ++ post)) ∧
    create_minimal_index none = [] ∧
    (∀ start_pos chunk_size : Nat, process_chunk none start_pos chunk_size = ([], none)) := by
  refine ⟨?_, rfl, fun _ _ => rfl⟩
  intro pre post bad hbad
  have hkeys : (indexPairs (pre ++ bad :: post) 0).map Prod.fst =
      (indexPairs (pre ++ post) 0).map Prod.fst := by
    rw [indexPairs_append, indexPairs_append, List.map_append, List.map_append]
    congr 1
    show (indexPairs (bad :: post) (0 + pre.length)).map Prod.fst = _
    simp only [indexPairs, hbad]
    exact indexPairs_keys_pos post (0 + pre.length + 1) (0 + pre.length)
  constructor
  · intro k
    rw [cmi_lookup_eq_none_iff, cmi_lookup_eq_none_iff, hkeys]
  · rw [cmi_processed_append, cmi_processed_append]
    congr 1
    show create_minimal_index_processed (bad :: post) = _
    simp only [create_minimal_index_processed, hbad]

/-- Malformed middle line used in the C6 witness. -/
def c6bad : RawLine := ⟨none⟩

/-- Well-formed first line used in the C6 witness. -/
def c6pre : List RawLine := [⟨some ⟨strCodes "q one", strCodes "u1", strCodes "1", [], [], []⟩⟩]

/-- Well-formed last line used in the C6 witness. -/
def c6post : List RawLine := [⟨some ⟨strCodes "q two", strCodes "u2", strCodes "2", [], [], []⟩⟩]

/-- C6 witness: a malformed middle line leaves the key set and the processed count
of the surrounding scan unchanged. -/
theorem C6_witness :
    c6bad.parsed = none ∧
    (qlookup (create_minimal_index (some (c6pre ++ c6bad :: c6post))) (strCodes "q two") = none ↔
     qlookup (create_minimal_index (some (c6pre ++ c6post))) (strCodes "q two") = none) ∧
    create_minimal_index_processed (c6pre ++ c6bad :: c6post) =
      create_minimal_index_processed (c6pre ++ c6post) :=
  ⟨rfl, (C6_amended.1 c6pre c6post c6bad rfl).1 (strCodes "q two"),
    (C6_amended.1 c6pre c6post c6bad rfl).2⟩

/-! Claim C5. -/

/-- C5: in both cited indexers the index entry stored under each Question Key is the
one derived from the last record, in visit order, that produced that key
(last-write-wins).  `indexPairs` lists the (key, entry) pairs in visit order, so
`filter` then `getLast?` selects exactly the last record producing the key;
`create_minimal_index` scans the whole store, and `process_chunk` does the same when
its window covers the whole store. -/
theorem C5_last_write_wins :
    ∀ (lines : List RawLine) (k : Str),
    qlookup (create_minimal_index (some lines)) k =
      ((indexPairs lines 0).filter (fun p => p.1 == k)).getLast?.map (fun p => p.2) ∧
    (process_chunk (some lines) 0 (lines.length + 1)).1 = create_minimal_index (some lines) := by
  intro lines k
  constructor
  · show qlookup (create_minimal_index_loop lines 0 []) k = _
    rw [create_minimal_index_loop_eq lines 0 [], List.append_nil, qlookup_reverse_getLast]
  · show (process_chunk_loop lines 0 (lines.length + 1) [] 0).1 = create_minimal_index_loop lines 0 []
    rw [process_chunk_loop_all lines 0 (lines.length + 1) [] 0 (by omega),
      create_minimal_index_loop_eq lines 0 []]

/-- Two store records normalizing to the same key: the surviving entry is the one of
the later record (byte offset 1), in both indexers. -/
example :
    qlookup (create_minimal_index (some
      [⟨some ⟨strCodes "The Same Q?", strCodes "u1", strCodes "1", [], [], []⟩⟩,
       ⟨some ⟨strCodes "the same q?", strCodes "u2", strCodes "2", [], [], []⟩⟩]))
      (strCodes "the same q?") = some ⟨strCodes "u2", strCodes "2", 1⟩ := by decide

/-! Claim C4. -/

/-- Query with surrounding whitespace in its question and a two-element answer. -/
def c4query : QueryRec := ⟨strCodes " Foo ", some [strCodes "a", strCodes "b"]⟩

/-- C4 counterexample: the unmatched record written by merge_datasets.py for a query
with question `" Foo "` and answer `["a", "b"]` carries the whitespace-stripped
question `"Foo"` and only the first answer element `"a"` - not the verbatim
question and not the full answer array. -/
theorem C4_counterexample :
    (process_efficient_qa [some c4query] emptyKwMap).2.1 =
      [⟨strCodes "Foo", strCodes "a", none⟩] ∧
    strCodes "Foo" ≠ strCodes " Foo " := by
  exact ⟨by decide, by decide⟩

/-- C4 amended: the passthrough stream of merge_datasets.py carries the query-side
question and answer verbatim; the chunked/memory driver carries the verbatim full
answer array but the whitespace-stripped question in both its streams; and the
unmatched stream of merge_datasets.py carries the stripped question together with
only the first element of the answer array. -/
theorem C4_amended :
    (∀ (q : QueryRec) (m : KwMap),
      (process_efficient_qa_step q m).1.map (fun f => (f.question, f.answer)) =
        (match answerHead q with
          | none => []
          | some _ => [(q.question, q.answer)])) ∧
    (∀ (q : QueryRec) (m : KwMap),
      (process_efficient_qa_step q m).2.1.map (fun u => (u.question, u.answer)) =
        (match answerHead q with
          | none => []
          | some ans =>
            match find_matches (pyStrip q.question) m (9 / 10) with
            | _ :: _ => []
            | [] => [(pyStrip q.question, ans)])) ∧
    (∀ (q : QueryRec) (idx : QIndex IndexEntry) (store : List RawLine),
      (process_open_step q idx store).1.map (fun r => (r.question, r.answer)) ++
        (process_open_step q idx store).2.map (fun r => (r.question, r.answer)) =
        (match qlookup idx (normalize_question (pyStrip q.question)) with
          | none => [(pyStrip q.question, q.answer.getD [])]
          | some e =>
            match get_full_data (some store) e.byte_offset with
            | some _ => [(pyStrip q.question, q.answer.getD [])]
            | none => [])) := by
  refine ⟨?_, ?_, ?_⟩
  · intro q m
    unfold process_efficient_qa_step
    cases ha : answerHead q with
    | none => simp [ha]
    | some ans =>
      cases hm : find_matches (pyStrip q.question) m (9 / 10) with
      | nil => simp [ha, hm]
      | cons b rest => simp [ha, hm]
  · intro q m
    unfold process_efficient_qa_step
    cases ha : answerHead q with
    | none => simp [ha]
    | some ans =>
      cases hm : find_matches (pyStrip q.question) m (9 / 10) with
      | nil => simp [ha, hm]
      | cons b rest => simp [ha, hm]
  · intro q idx store
    unfold process_open_step
    cases hl : qlookup idx (normalize_question (pyStrip q.question)) with
    | none => simp [hl]
    | some e =>
      cases hf : get_full_data (some store) e.byte_offset with
      | none => simp [hl, hf]
      | some sd => simp [hl, hf]

end NQ
